import Mathlib

/-
  Verification of the plan-execute-review analytics orchestration engine
  (src/server/agent of the prototype-cube repository).

  The live orchestration path is src/server/agent/orchestrator.py (the
  streaming layer imports run_analytics from there; graph.py is a dead
  legacy variant that imports names no longer present in models.py), so
  the definitions below are a shallow embedding of orchestrator.py plus
  the modules it uses: models.py, cube_meta.py, agents.py.

  External oracles (planner, reviewer, text generator, query corrector)
  and the semantic query service are modelled as environment functions
  indexed by call count: the source passes them prompt strings whose
  content only influences the answer of the oracle, and that answer is
  universally quantified here, so indexing by call count is a sound
  nondeterministic abstraction.  Python strings are Lean Strings; Python
  floats for sleep durations are embedded as exact rationals; JSON row
  objects are ordered association lists of field name / rendered value.
-/

namespace PrototypeCube

/- ------------------------------------------------------------------ -/
/- Python string primitives, re-implemented structurally so that the   -/
/- kernel can evaluate them (String.ltb / String.trim are defined by   -/
/- well-founded recursion and do not reduce under `decide`).           -/
/- ------------------------------------------------------------------ -/

/-- Lexicographic comparison of char lists by code point, the order Python
uses for `str` comparison (and the order `sorted` sorts string keys by). -/
def lexLe : List Char → List Char → Bool
  | [], _ => true
  | _ :: _, [] => false
  | a :: as, b :: bs =>
    if a.val < b.val then true
    else if b.val < a.val then false
    else lexLe as bs

/-- Python string `<=`, acting on the underlying char lists. -/
def strLe (a b : String) : Bool := lexLe a.data b.data

/-- Python `str.strip()` restricted to ASCII whitespace: drop leading and
trailing whitespace characters. -/
def pyStrip (s : String) : String :=
  String.mk (((s.data.dropWhile Char.isWhitespace).reverse.dropWhile
    Char.isWhitespace).reverse)

/-- Python `sep.join(parts)`. -/
def joinSep (sep : String) : List String → String
  | [] => ""
  | [x] => x
  | x :: xs => x ++ sep ++ joinSep sep xs

/-- Helper for Python `key.split(".")`: split a char list at every dot. -/
def splitDotAux : List Char → List Char → List (List Char)
  | [], acc => [acc.reverse]
  | c :: cs, acc =>
    if c = '.' then acc.reverse :: splitDotAux cs [] else splitDotAux cs (c :: acc)

/-- Python `key.split(".")`. -/
def pySplitDot (s : String) : List String :=
  (splitDotAux s.data []).map String.mk

/-- Python `key.count(".")`. -/
def countDot (s : String) : Nat := s.data.countP (· = '.')

/-- `".".join(key.split(".")[:2]) if key.count(".") >= 2 else key` — the
granularity-suffix stripping used on order keys in `_validate_plan_members`
(orchestrator.py line 105). -/
def stripGranularity (key : String) : String :=
  if 2 ≤ countDot key then joinSep "." ((pySplitDot key).take 2) else key

/- ------------------------------------------------------------------ -/
/- Data model (src/server/agent/models.py)                             -/
/- ------------------------------------------------------------------ -/

/-- models.py `CubeTimeDimension`.  `dateRange` may be a string or a list
of strings. -/
structure CubeTimeDimension where
  dimension : String
  granularity : Option String := none
  dateRange : Option (String ⊕ List String) := none
  deriving DecidableEq

/-- models.py `CubeFilter`. -/
structure CubeFilter where
  member : String
  operator : String
  values : Option (List String) := none
  deriving DecidableEq

/-- models.py `CubeQuery`.  The Python `order` dict is an insertion-ordered
mapping from field name to direction, embedded as an association list. -/
structure CubeQuery where
  measures : List String := []
  dimensions : List String := []
  timeDimensions : List CubeTimeDimension := []
  filters : List CubeFilter := []
  order : Option (List (String × String)) := none
  limit : Option Int := none
  deriving DecidableEq

/-- models.py `QuerySpec` (planner-facing query parameters). -/
structure QuerySpec where
  measures : List String
  dimensions : List String := []
  time_dimensions : Option (List CubeTimeDimension) := none
  filters : Option (List CubeFilter) := none
  order : Option (List (String × String)) := none
  limit : Option Int := none
  deriving DecidableEq

/-- models.py `TextBlockSpec`. -/
structure TextBlockSpec where
  text_guidance : Option String := none
  deriving DecidableEq

/-- models.py `LineChartBlockSpec`. -/
structure LineChartBlockSpec where
  title : String
  x_axis_key : String
  y_axis_key : String
  query : QuerySpec
  deriving DecidableEq

/-- models.py `BarChartBlockSpec`. -/
structure BarChartBlockSpec where
  title : String
  category_key : String
  value_key : String
  query : QuerySpec
  deriving DecidableEq

/-- models.py `TableBlockSpec`. -/
structure TableBlockSpec where
  title : String
  columns : List String
  query : QuerySpec
  deriving DecidableEq

/-- models.py `BlockSpec`, the discriminated union of block specs tagged by
the `type` field. -/
inductive BlockSpec where
  | text (s : TextBlockSpec)
  | chart_line (s : LineChartBlockSpec)
  | chart_bar (s : BarChartBlockSpec)
  | table (s : TableBlockSpec)
  deriving DecidableEq

/-- The `type` discriminator string of a block spec. -/
def BlockSpec.typeStr : BlockSpec → String
  | .text _ => "text"
  | .chart_line _ => "chart_line"
  | .chart_bar _ => "chart_bar"
  | .table _ => "table"

/-- `isinstance(spec, TextBlockSpec)`. -/
def BlockSpec.isText : BlockSpec → Bool
  | .text _ => true
  | _ => false

/-- The `query` attribute carried by every non-text block spec. -/
def BlockSpec.dataQuery : BlockSpec → Option QuerySpec
  | .text _ => none
  | .chart_line s => some s.query
  | .chart_bar s => some s.query
  | .table s => some s.query

/-- models.py `BlockPlan`. -/
structure BlockPlan where
  block_id : String
  purpose : String
  spec : BlockSpec
  deriving DecidableEq

/-- models.py `ReportPlan.domain` is `Literal["marketing", "sales"]`. -/
inductive Domain where
  | marketing
  | sales
  deriving DecidableEq

/-- The string value of a `domain` literal. -/
def Domain.str : Domain → String
  | .marketing => "marketing"
  | .sales => "sales"

/-- models.py `ReportPlan`. -/
structure ReportPlan where
  domain : Domain
  summary_title : String
  narrative_strategy : String
  blocks : List BlockPlan
  conversational_response : Bool := false
  deriving DecidableEq

/-- models.py `LLMBlockPlan`: a block spec extended with the planning
metadata (`block_id`, `purpose`) the LLM emits. -/
structure LLMBlockPlan where
  block_id : String
  purpose : String
  spec : BlockSpec
  deriving DecidableEq

/-- models.py `LLM*BlockPlan.to_block_plan`. -/
def LLMBlockPlan.to_block_plan (b : LLMBlockPlan) : BlockPlan :=
  { block_id := b.block_id, purpose := b.purpose, spec := b.spec }

/-- models.py `LLMReportPlan`. -/
structure LLMReportPlan where
  domain : Domain
  summary_title : String
  narrative_strategy : String
  blocks : List LLMBlockPlan
  conversational_response : Bool := false
  deriving DecidableEq

/-- models.py `llm_plan_to_report_plan`. -/
def llm_plan_to_report_plan (raw : LLMReportPlan) : ReportPlan :=
  { domain := raw.domain
    summary_title := raw.summary_title
    narrative_strategy := raw.narrative_strategy
    blocks := raw.blocks.map LLMBlockPlan.to_block_plan
    conversational_response := raw.conversational_response }

/-- A JSON row object returned by the semantic query service: an ordered
list of field-name / rendered-value pairs.  The orchestrator never inspects
the values, only the key list (for default table columns). -/
def Row : Type := List (String × String)

instance : DecidableEq Row := inferInstanceAs (DecidableEq (List (String × String)))

/-- models.py `ExecutedBlock`. -/
structure ExecutedBlock where
  block_id : String
  block_plan : BlockPlan
  cube_query : Option CubeQuery := none
  data : Option (List Row) := none
  error : Option String := none
  text_content : Option String := none
  deriving DecidableEq

/-- models.py `ReviewResult` (field values as stored in the model). -/
structure ReviewResult where
  quality_score : Int
  issues : List String := []
  revision_instructions : Option String := none
  approved : Bool
  deriving DecidableEq

/-- Pydantic model validation for `ReviewResult`: `quality_score` carries
`Field(ge=1, le=5)`; no other constraint is declared on the model
(models.py lines 285-290), so validation succeeds exactly when the score is
in [1,5]. -/
def ReviewResult.model_validate (quality_score : Int) (issues : List String)
    (revision_instructions : Option String) (approved : Bool) :
    Option ReviewResult :=
  if 1 ≤ quality_score ∧ quality_score ≤ 5 then
    some { quality_score := quality_score, issues := issues,
           revision_instructions := revision_instructions, approved := approved }
  else none

/-- models.py report block union (`ThoughtBlock | TextBlock |
LineChartBlock | BarChartBlock | TableBlock`). -/
inductive AnalyticsBlock where
  | thought (content : String)
  | text (content : String)
  | chart_line (title x_axis_key y_axis_key : String)
      (cube_query : CubeQuery) (data : Option (List Row))
  | chart_bar (title category_key value_key : String)
      (cube_query : CubeQuery) (data : Option (List Row))
  | table (title : String) (columns : List String)
      (cube_query : CubeQuery) (data : Option (List Row))
  deriving DecidableEq

/-- `isinstance(b, (TextBlock, LineChartBlock, BarChartBlock, TableBlock))`
— the renderable (non-thought) block types, as tested by the assembler. -/
def AnalyticsBlock.isRenderable : AnalyticsBlock → Bool
  | .thought _ => false
  | _ => true

/-- `isinstance(b, ThoughtBlock)`. -/
def AnalyticsBlock.isThought : AnalyticsBlock → Bool
  | .thought _ => true
  | _ => false

/-- models.py `AnalyticsReport`. -/
structure AnalyticsReport where
  report_id : String
  summary_title : String
  blocks : List AnalyticsBlock
  deriving DecidableEq

/- ------------------------------------------------------------------ -/
/- Orchestrator helpers (src/server/agent/orchestrator.py)             -/
/- ------------------------------------------------------------------ -/

/-- orchestrator.py constant `MAX_REVISIONS = 2`. -/
def MAX_REVISIONS : Nat := 2

/-- orchestrator.py constant `MAX_BLOCK_RETRIES = 2`. -/
def MAX_BLOCK_RETRIES : Nat := 2

/-- orchestrator.py constant `TRANSIENT_RETRY_DELAY = 1.0` (seconds),
embedded as an exact rational. -/
def TRANSIENT_RETRY_DELAY : ℚ := 1

/-- orchestrator.py `_build_cube_query`: convert a QuerySpec into a
CubeQuery, or None on error.  The Python try/except guards dynamically
typed construction; given a well-typed (already pydantic-validated)
QuerySpec the construction always succeeds, so the error branch is
unreachable here and the function returns `some` of this conversion. -/
def querySpecToCube (spec : QuerySpec) : CubeQuery :=
  { measures := spec.measures
    dimensions := spec.dimensions
    timeDimensions := spec.time_dimensions.getD []
    filters := spec.filters.getD []
    order := spec.order
    limit := spec.limit }

/-- orchestrator.py `_build_cube_query` (lines 60-75). -/
def _build_cube_query (spec : QuerySpec) : Option CubeQuery :=
  some (querySpecToCube spec)

/-- The per-query member-reference error messages produced by
`_validate_plan_members` for one data block with id prefix
`"Block " ++ block_id` (orchestrator.py lines 86-107).  The categories are
emitted in source order: measures, dimensions, time dimensions, filter
members, order keys; a falsy (empty) time-dimension field or filter member
is skipped by the truthiness test in the source. -/
def queryMemberErrors (pfx : String) (query : QuerySpec)
    (valid_members : List String) : List String :=
  (query.measures.filterMap fun m =>
    if m ∈ valid_members then none
    else some (pfx ++ ": invalid measure \x27" ++ m ++ "\x27"))
  ++ (query.dimensions.filterMap fun d =>
    if d ∈ valid_members then none
    else some (pfx ++ ": invalid dimension \x27" ++ d ++ "\x27"))
  ++ ((query.time_dimensions.getD []).filterMap fun td =>
    if td.dimension ≠ "" ∧ td.dimension ∉ valid_members then
      some (pfx ++ ": invalid time dimension \x27" ++ td.dimension ++ "\x27")
    else none)
  ++ ((query.filters.getD []).filterMap fun f =>
    if f.member ≠ "" ∧ f.member ∉ valid_members then
      some (pfx ++ ": invalid filter member \x27" ++ f.member ++ "\x27")
    else none)
  ++ ((query.order.getD []).filterMap fun kv =>
    if stripGranularity kv.1 ∈ valid_members then none
    else some (pfx ++ ": invalid order key \x27" ++ kv.1 ++ "\x27"))

/-- orchestrator.py `_validate_plan_members` (lines 78-108): check all
member names in a ReportPlan against valid cube members.  (agents.py
`_check_member_names` is the identical code.)  The Python `set[str]` of
valid members is embedded as a list queried by membership. -/
def _validate_plan_members (plan : ReportPlan) (valid_members : List String) :
    List String :=
  plan.blocks.flatMap fun block =>
    match block.spec.dataQuery with
    | none => []
    | some query => queryMemberErrors ("Block " ++ block.block_id) query valid_members

/-- The member references of one query that `_validate_plan_members`
checks: measures, dimensions, non-empty time-dimension fields, non-empty
filter members, and order keys stripped of a trailing granularity
suffix. -/
def queryRefs (query : QuerySpec) : List String :=
  query.measures
  ++ query.dimensions
  ++ ((query.time_dimensions.getD []).filterMap fun td =>
    if td.dimension = "" then none else some td.dimension)
  ++ ((query.filters.getD []).filterMap fun f =>
    if f.member = "" then none else some f.member)
  ++ ((query.order.getD []).map fun kv => stripGranularity kv.1)

/-- All member references of the data blocks of a plan, in validation order. -/
def planRefs (plan : ReportPlan) : List String :=
  plan.blocks.flatMap fun block =>
    match block.spec.dataQuery with
    | none => []
    | some query => queryRefs query

/-- The exceptions `execute_cube_query` can raise, as classified by
`_is_transient_error`: an `httpx.HTTPStatusError` carrying a response
status code, an `httpx.TimeoutException`/`asyncio.TimeoutError`, or any
other exception.  Each carries its `str(exc)` rendering. -/
inductive CubeError where
  | httpStatus (status : Nat) (msg : String)
  | timeout (msg : String)
  | other (msg : String)
  deriving DecidableEq

/-- `str(exc)` for an execution error. -/
def CubeError.message : CubeError → String
  | .httpStatus _ m => m
  | .timeout m => m
  | .other m => m

/-- orchestrator.py `_is_transient_error` (lines 111-117): HTTP status
errors with code >= 500 and timeouts are transient; everything else is
not. -/
def _is_transient_error : CubeError → Bool
  | .httpStatus status _ => 500 ≤ status
  | .timeout _ => true
  | .other _ => false

/-- orchestrator.py `_make_early_exit_report` (lines 120-133).  The
`uuid.uuid4()` report id is supplied by the environment of the caller. -/
def _make_early_exit_report (report_id title text : String)
    (thoughts : List String) : AnalyticsReport :=
  { report_id := report_id
    summary_title := title
    blocks := thoughts.map AnalyticsBlock.thought ++ [AnalyticsBlock.text text] }

/- ------------------------------------------------------------------ -/
/- Metadata cache (src/server/agent/cube_meta.py)                      -/
/- ------------------------------------------------------------------ -/

/-- One member entry of the `/meta` JSON response (a Python dict read with
`.get` and its defaults): `name` is accessed unconditionally, `type` and
`aggType` default to absent, `isVisible` and `public` default to true. -/
structure MetaMember where
  name : String
  type : Option String := none
  aggType : Option String := none
  isVisible : Bool := true
  public : Bool := true
  deriving DecidableEq

/-- One cube entry of the `/meta` JSON response. -/
structure MetaCube where
  name : Option String := none
  title : Option String := none
  measures : List MetaMember := []
  dimensions : List MetaMember := []
  deriving DecidableEq

/-- The `/meta` JSON response consumed by `format_cube_meta`. -/
structure CubeMeta where
  cubes : List MetaCube := []
  deriving DecidableEq

/-- cube_meta.py `_CACHE_TTL = 300` seconds. -/
def CACHE_TTL : Int := 300

/-- cube_meta.py `QUERY_FORMAT_INSTRUCTIONS` (lines 17-29); literal braces
are written as hex escapes. -/
def QUERY_FORMAT_INSTRUCTIONS : String :=
  "## Join Relationships\n"
  ++ "- fact_sales_items → dim_product_variants, dim_customers\n"
  ++ "- fact_attributions → dim_product_variants, dim_customers, dim_attribution_models, fact_daily_ads\n"
  ++ "- email_performance has no joins (standalone)\n"
  ++ "\n"
  ++ "## Query Format\n"
  ++ "- Time dimensions use: \x7b\"dimension\": \"cube.field\", \"granularity\": \"day|week|month|quarter|year\", \"dateRange\": \"Last 30 days\"\x7d\n"
  ++ "- Filters use: \x7b\"member\": \"cube.field\", \"operator\": \"equals|notEquals|contains|gt|lt|gte|lte|set|notSet|inDateRange\", \"values\": [\"...\"]\x7d\n"
  ++ "- Order uses: \x7b\"cube.field\": \"asc|desc\"\x7d\n"
  ++ "- When querying across joined cubes, use measures from the fact table with dimensions from the joined dimension table\n"
  ++ "- Always prefix member names with the cube name (e.g. fact_sales_items.gross_sales, NOT just gross_sales)\n"

/-- cube_meta.py `FALLBACK_TEXT` (lines 31-36). -/
def FALLBACK_TEXT : String :=
  "## Available Cubes & Members\n\n"
  ++ "(Cube metadata is temporarily unavailable. Use your best judgement "
  ++ "based on the user\x27s question.)\n\n"
  ++ QUERY_FORMAT_INSTRUCTIONS

/-- cube_meta.py `_AGG_TYPE_MAP` (lines 40-44). -/
def _AGG_TYPE_MAP (agg : String) : Option String :=
  if agg = "number" then some "calculated"
  else if agg = "countDistinct" then some "count_distinct"
  else if agg = "runningTotal" then some "running_total"
  else none

/-- cube_meta.py `_is_visible`. -/
def _is_visible (m : MetaMember) : Bool := m.isVisible && m.public

/-- cube_meta.py `_format_measure`. -/
def _format_measure (m : MetaMember) : String :=
  let agg := m.aggType.getD (m.type.getD "")
  let display_type := (_AGG_TYPE_MAP agg).getD agg
  m.name ++ " (" ++ display_type ++ ")"

/-- cube_meta.py `_format_dimension`. -/
def _format_dimension (d : MetaMember) : String :=
  d.name ++ " (" ++ d.type.getD "string" ++ ")"

/-- cube_meta.py `format_cube_meta` (lines 61-83): transform the `/meta`
response into prompt-friendly text. -/
def format_cube_meta (meta : CubeMeta) : String :=
  let lines := ["## Available Cubes & Members\n"]
    ++ meta.cubes.flatMap fun cube =>
      let name := cube.name.getD ""
      let title := cube.title.getD name
      let measures := cube.measures.filter _is_visible
      let dimensions := cube.dimensions.filter _is_visible
      ["### " ++ name ++ " (" ++ title ++ ")"]
      ++ (if measures.isEmpty then []
          else ["Measures: " ++ joinSep ", " (measures.map _format_measure)])
      ++ (if dimensions.isEmpty then []
          else ["Dimensions: " ++ joinSep ", " (dimensions.map _format_dimension)])
      ++ [""]
  joinSep "\n" lines

/-- The module-level cache state of cube_meta.py: `_cached_text` and
`_cached_at` (initially `None` / `0.0`).  The monotonic clock is embedded
as integral seconds. -/
structure CacheState where
  cached_text : Option String := none
  cached_at : Int := 0
  deriving DecidableEq

/-- The observable outcome of one `get_cube_meta_context()` call: the
returned string, the cache state afterwards, and whether
`cube_client.fetch_cube_meta()` was invoked. -/
structure CacheCallResult where
  value : String
  state : CacheState
  fetched : Bool
  deriving DecidableEq

/-- cube_meta.py `get_cube_meta_context` (lines 86-108), as a state-passing
function.  `now` is the value of `time.monotonic()` at the call;
`fetch` is the outcome the network fetch would have if performed
(`.ok meta` on success, `.error ()` when `fetch_cube_meta` raises).
The function is total: no path raises to the caller. -/
def get_cube_meta_context (st : CacheState) (now : Int)
    (fetch : Except Unit CubeMeta) : CacheCallResult :=
  let fetchPath : CacheCallResult :=
    match fetch with
    | .ok meta =>
        let txt := format_cube_meta meta ++ "\n" ++ QUERY_FORMAT_INSTRUCTIONS
        { value := txt, state := { cached_text := some txt, cached_at := now },
          fetched := true }
    | .error _ =>
        match st.cached_text with
        | some t => { value := t, state := st, fetched := true }
        | none => { value := FALLBACK_TEXT, state := st, fetched := true }
  match st.cached_text with
  | some t =>
      if now - st.cached_at < CACHE_TTL then { value := t, state := st, fetched := false }
      else fetchPath
  | none => fetchPath

/- ------------------------------------------------------------------ -/
/- Block retry loop (orchestrator.py lines 390-423)                    -/
/- ------------------------------------------------------------------ -/

/-- The observable outcome of the retry loop of one data block: the query
variable `current_query` after the loop, `last_error` / `data` as left by
the loop, the number of `cube_client.execute_cube_query` invocations, the
number of `_llm_correct_query` invocations, and the durations passed to
`asyncio.sleep`, in order. -/
structure BlockRetryResult where
  current_query : CubeQuery
  last_error : Option String
  data : Option (List Row)
  queryCalls : Nat
  correctorCalls : Nat
  sleeps : List ℚ
  deriving DecidableEq

/-- One traversal of `for attempt in range(1 + MAX_BLOCK_RETRIES)` from
orchestrator.py lines 394-423.  `exec` gives the outcome of the semantic
service call at a given attempt index; `correct` gives the outcome of the
query-correction oracle at a given corrector-call index, fed the failed
query and its error text (`None` both when the oracle errors and when it
yields no output, as in `_llm_correct_query`).  `fuel` is the number of
loop iterations remaining, so the loop is entered with
`fuel = 1 + MAX_BLOCK_RETRIES` and `attempt = 0`. -/
def blockRetryGo (exec : Nat → Except CubeError (List Row))
    (correct : Nat → CubeQuery → String → Option QuerySpec) :
    Nat → Nat → CubeQuery → Option String → Option (List Row) →
    Nat → Nat → List ℚ → BlockRetryResult
  | 0, _, q, lastErr, dat, qc, cc, sl =>
      -- `range` exhausted: the loop falls through with its current state.
      { current_query := q, last_error := lastErr, data := dat,
        queryCalls := qc, correctorCalls := cc, sleeps := sl }
  | fuel + 1, attempt, q, _, dat, qc, cc, sl =>
      match exec attempt with
      | .ok rows =>
          -- success: store rows, clear last_error, break
          { current_query := q, last_error := none, data := some rows,
            queryCalls := qc + 1, correctorCalls := cc, sleeps := sl }
      | .error e =>
          let msg := e.message
          if MAX_BLOCK_RETRIES ≤ attempt then
            -- `if attempt >= MAX_BLOCK_RETRIES: break`
            { current_query := q, last_error := some msg, data := dat,
              queryCalls := qc + 1, correctorCalls := cc, sleeps := sl }
          else if _is_transient_error e then
            -- sleep(TRANSIENT_RETRY_DELAY * (attempt + 1)); same query
            blockRetryGo exec correct fuel (attempt + 1) q (some msg) dat
              (qc + 1) cc (sl ++ [TRANSIENT_RETRY_DELAY * ((attempt : ℚ) + 1)])
          else
            match correct cc q msg with
            | some corrected =>
                match _build_cube_query corrected with
                | some new_query =>
                    -- corrected query: `current_query = new_query; continue`
                    blockRetryGo exec correct fuel (attempt + 1) new_query
                      (some msg) dat (qc + 1) (cc + 1) sl
                | none =>
                    -- rebuild failed: break
                    { current_query := q, last_error := some msg, data := dat,
                      queryCalls := qc + 1, correctorCalls := cc + 1, sleeps := sl }
            | none =>
                -- correction failed: break
                { current_query := q, last_error := some msg, data := dat,
                  queryCalls := qc + 1, correctorCalls := cc + 1, sleeps := sl }

/-- The complete retry loop of one data block, started on the built
built query. -/
def runBlockRetry (exec : Nat → Except CubeError (List Row))
    (correct : Nat → CubeQuery → String → Option QuerySpec)
    (cube_query : CubeQuery) : BlockRetryResult :=
  blockRetryGo exec correct (1 + MAX_BLOCK_RETRIES) 0 cube_query none none 0 0 []

/- ------------------------------------------------------------------ -/
/- Assembler phase (orchestrator.py lines 513-581)                     -/
/- ------------------------------------------------------------------ -/

/-- `sorted(executed_blocks, key=lambda eb: eb.block_id)` (line 522):
the stable ascending Python sort keyed by the `block_id` string, which
Python compares lexicographically by code point.  Embedded as a stable
insertion sort under the same order. -/
def blockIdLe (a b : ExecutedBlock) : Prop :=
  strLe a.block_id b.block_id = true

instance : DecidableRel blockIdLe :=
  fun _ _ => inferInstanceAs (Decidable (_ = true))

def sortExecuted (executed_blocks : List ExecutedBlock) : List ExecutedBlock :=
  executed_blocks.insertionSort blockIdLe

/-- The report blocks contributed by one executed block in the assembler
conversion loop (lines 524-562): blocks with an error are skipped; a text
block contributes its text content if present; each chart/table block
contributes its block if it has data and a query.  Default table columns
come from the keys of the first row. -/
def convertOne (eb : ExecutedBlock) : List AnalyticsBlock :=
  if eb.error.isSome then []
  else
    match eb.block_plan.spec with
    | .text _ =>
        match eb.text_content with
        | some t => [.text t]
        | none => []
    | .chart_line s =>
        match eb.data, eb.cube_query with
        | some d, some q => [.chart_line s.title s.x_axis_key s.y_axis_key q (some d)]
        | _, _ => []
    | .chart_bar s =>
        match eb.data, eb.cube_query with
        | some d, some q => [.chart_bar s.title s.category_key s.value_key q (some d)]
        | _, _ => []
    | .table s =>
        match eb.data, eb.cube_query with
        | some d, some q =>
            let columns :=
              if s.columns ≠ [] then s.columns
              else match d with
                   | row :: _ => row.map Prod.fst
                   | [] => []
            [.table s.title columns q (some d)]
        | _, _ => []

/-- The assembler conversion loop over the sorted executed blocks. -/
def convertExecuted (ebs : List ExecutedBlock) : List AnalyticsBlock :=
  ebs.flatMap convertOne

/-- The synthesized error text appended when no renderable block was
produced (lines 565-572). -/
def errorFallbackText (block_errors : List String) : String :=
  "I encountered errors while executing the data queries. "
  ++ "Errors: "
  ++ (if block_errors.isEmpty then "Unknown errors" else joinSep "; " block_errors)
  ++ "\n\nCould you try rephrasing your question?"

/-- The assembler phase (orchestrator.py lines 516-578): thought blocks
from the accumulated log, then the executed blocks sorted by block id and
converted, with a single synthesized text block when nothing renderable
was produced.  The `uuid.uuid4()` report id is supplied by the
environment of the caller. -/
def assemble (report_id : String) (thought_log : List String)
    (executed_blocks : List ExecutedBlock) (block_errors : List String)
    (summary_title : String) : AnalyticsReport :=
  let blocks := thought_log.map AnalyticsBlock.thought
    ++ convertExecuted (sortExecuted executed_blocks)
  let blocks :=
    if blocks.any AnalyticsBlock.isRenderable then blocks
    else blocks ++ [.text (errorFallbackText block_errors)]
  { report_id := report_id, summary_title := summary_title, blocks := blocks }

/- ------------------------------------------------------------------ -/
/- Orchestrator state machine (orchestrator.py run_analytics)          -/
/- ------------------------------------------------------------------ -/

/-- Call counters for each external collaborator, tracking how many times
each oracle / service has been invoked so far in a run. -/
structure OracleCounters where
  planner : Nat := 0
  textGen : Nat := 0
  reviewer : Nat := 0
  corrector : Nat := 0
  query : Nat := 0
  deriving DecidableEq

/-- The environment of one `run_analytics` run: the behaviour of every
external oracle, indexed by its own call count (the prompt strings
the source builds only parametrize these black boxes, so call-count
indexing is a sound nondeterministic abstraction), plus the pre-fetched
valid member set and the report id the run would draw from
`uuid.uuid4()`.  An `.error ()` outcome models the Python call raising. -/
structure OrchEnv where
  planner : Nat → Except Unit LLMReportPlan
  textGen : Nat → Except Unit String
  reviewer : Nat → Except Unit ReviewResult
  corrector : Nat → CubeQuery → String → Option QuerySpec
  queryExec : Nat → Except CubeError (List Row)
  valid_members : Option (List String)
  report_id : String

/-- The planner phase of one revision round (orchestrator.py lines
239-267): run the planner, validate member names, and on validation
errors run the planner once more with the errors appended to its prompt,
keeping the second plan regardless (remaining errors are only logged).
An oracle exception on either call is caught by the surrounding
`except` (line 268) and reported as `.error`. -/
def plannerPhase (env : OrchEnv) (c : OracleCounters) :
    Except Unit ReportPlan × OracleCounters :=
  match env.planner c.planner with
  | .error _ => (.error (), { c with planner := c.planner + 1 })
  | .ok raw_plan =>
      let plan := llm_plan_to_report_plan raw_plan
      match env.valid_members with
      | none => (.ok plan, { c with planner := c.planner + 1 })
      | some vm =>
          if (_validate_plan_members plan vm).isEmpty then
            (.ok plan, { c with planner := c.planner + 1 })
          else
            match env.planner (c.planner + 1) with
            | .error _ => (.error (), { c with planner := c.planner + 2 })
            | .ok raw_plan2 =>
                (.ok (llm_plan_to_report_plan raw_plan2),
                 { c with planner := c.planner + 2 })

/-- The reorder step (lines 278-281): data blocks first, text blocks
last. -/
def reorderPlan (plan : ReportPlan) : ReportPlan :=
  { plan with blocks := plan.blocks.filter (fun b => ¬b.spec.isText)
      ++ plan.blocks.filter (fun b => b.spec.isText) }

/-- `has_data_blocks` (line 287). -/
def hasDataBlocks (plan : ReportPlan) : Bool :=
  plan.blocks.any fun b => ¬b.spec.isText

/-- `raw_guidance` of the pure-text path (lines 291-295): the truthy text
guidances joined by spaces, or the narrative strategy when there are
none. -/
def textOnlyGuidance (plan : ReportPlan) : String :=
  let text_parts := plan.blocks.filterMap fun block =>
    match block.spec with
    | .text s =>
        match s.text_guidance with
        | some g => if g = "" then none else some g
        | none => none
    | _ => none
  if text_parts.isEmpty then plan.narrative_strategy else joinSep " " text_parts

/-- The block-executor phase (lines 336-445), one planned block at a
time.  `total` is `len(plan.blocks)` and `idx` the 0-based position.
Accumulates executed blocks, block errors and thoughts in order.  A text
block runs the text-generation oracle, whose exception is not caught by
the source and escapes the whole run: that is the `.error` outcome, which
carries the counters at the point of the raise. -/
def execBlocksGo (env : OrchEnv) (total : Nat) :
    List BlockPlan → Nat → OracleCounters → List ExecutedBlock →
    List String → List String →
    Except OracleCounters
      (List ExecutedBlock × List String × List String × OracleCounters)
  | [], _, c, executed, block_errors, thoughts =>
      .ok (executed, block_errors, thoughts, c)
  | block_plan :: rest, idx, c, executed, block_errors, thoughts =>
      match block_plan.spec.dataQuery with
      | none =>
          -- text block: LLM generation with data context from prior blocks
          match env.textGen c.textGen with
          | .error _ => .error { c with textGen := c.textGen + 1 }
          | .ok out =>
              let eb : ExecutedBlock :=
                { block_id := block_plan.block_id, block_plan := block_plan,
                  text_content := some (pyStrip out) }
              let thought := "Executed block " ++ Nat.repr (idx + 1) ++ "/"
                ++ Nat.repr total ++ ": text"
              execBlocksGo env total rest (idx + 1)
                { c with textGen := c.textGen + 1 }
                (executed ++ [eb]) block_errors (thoughts ++ [thought])
      | some qspec =>
          match _build_cube_query qspec with
          | none =>
              let eb : ExecutedBlock :=
                { block_id := block_plan.block_id, block_plan := block_plan,
                  error := some "Query validation failed" }
              let thought := "Executed block " ++ Nat.repr (idx + 1) ++ "/"
                ++ Nat.repr total ++ ": " ++ block_plan.spec.typeStr
                ++ " (validation error)"
              execBlocksGo env total rest (idx + 1) c (executed ++ [eb])
                (block_errors
                  ++ ["Block " ++ block_plan.block_id ++ ": query validation failed"])
                (thoughts ++ [thought])
          | some cube_query =>
              let r := runBlockRetry
                (fun a => env.queryExec (c.query + a))
                (fun cc q msg => env.corrector (c.corrector + cc) q msg)
                cube_query
              let c' := { c with query := c.query + r.queryCalls,
                                 corrector := c.corrector + r.correctorCalls }
              match r.last_error with
              | some err =>
                  let eb : ExecutedBlock :=
                    { block_id := block_plan.block_id, block_plan := block_plan,
                      cube_query := some r.current_query, error := some err }
                  let thought := "Executed block " ++ Nat.repr (idx + 1) ++ "/"
                    ++ Nat.repr total ++ ": " ++ block_plan.spec.typeStr
                    ++ " (error)"
                  execBlocksGo env total rest (idx + 1) c' (executed ++ [eb])
                    (block_errors ++ ["Block " ++ block_plan.block_id ++ ": " ++ err])
                    (thoughts ++ [thought])
              | none =>
                  let eb : ExecutedBlock :=
                    { block_id := block_plan.block_id, block_plan := block_plan,
                      cube_query := some r.current_query, data := r.data }
                  let thought := "Executed block " ++ Nat.repr (idx + 1) ++ "/"
                    ++ Nat.repr total ++ ": " ++ block_plan.spec.typeStr
                    ++ " (" ++ Nat.repr (r.data.getD []).length ++ " rows)"
                  execBlocksGo env total rest (idx + 1) c' (executed ++ [eb])
                    block_errors (thoughts ++ [thought])

/-- The reviewer phase (lines 450-499): summarize the executed blocks for
the review oracle and run it; on oracle failure default to
`ReviewResult(quality_score=4, approved=True)`. -/
def reviewerPhase (env : OrchEnv) (c : OracleCounters) :
    ReviewResult × OracleCounters :=
  (match env.reviewer c.reviewer with
   | .ok r => r
   | .error _ =>
       { quality_score := 4, issues := [], revision_instructions := none,
         approved := true },
   { c with reviewer := c.reviewer + 1 })

/-- The observable outcome of one revision-round body (one iteration of
`for _revision_round in range(1 + MAX_REVISIONS)`). -/
inductive RoundOutcome where
  | earlyPlanner (c : OracleCounters)
  | earlyText (title combined : String) (c : OracleCounters)
  | raised (c : OracleCounters)
  | reviewed (plan : ReportPlan) (executed : List ExecutedBlock)
      (block_errors : List String) (thoughts : List String)
      (review : ReviewResult) (c : OracleCounters)

/-- The thought strings a full (reviewed) round appends to the log, in
order: the routing and planning thoughts, the per-block thoughts, then
the review thought (orchestrator.py lines 285, 327-331, 444, 503-506). -/
def roundThoughts (plan : ReportPlan) (blockThoughts : List String)
    (review_result : ReviewResult) : List String :=
  ["Routing to " ++ plan.domain.str ++ " analytics specialist.",
   "Planning report: " ++ plan.summary_title ++ " ("
     ++ Nat.repr plan.blocks.length ++ " blocks)"]
  ++ blockThoughts
  ++ ["Review score: " ++ Int.repr review_result.quality_score ++ "/5 — "
      ++ (if review_result.approved then "approved" else "revision needed")]

/-- One loop-body iteration of `run_analytics` (lines 207-507), up to and
including the reviewer phase.  `_review_result` and `_revision_count`
shape only the revision feedback embedded in the planner prompt
(lines 215-226), which is abstracted into the planner oracle.  The
let-bound locals of the source (`plan`, the thought strings, the reviewer pair)
are inlined; all are pure. -/
def runRound (env : OrchEnv) (c : OracleCounters)
    (_review_result : Option ReviewResult) (_revision_count : Nat) :
    RoundOutcome :=
  match plannerPhase env c with
  | (.error _, c') => .earlyPlanner c'
  | (.ok plan0, c') =>
      if hasDataBlocks (reorderPlan plan0) then
        match execBlocksGo env (reorderPlan plan0).blocks.length
            (reorderPlan plan0).blocks 0 c' [] [] [] with
        | .error cRaise => .raised cRaise
        | .ok (executed, block_errors, blockThoughts, c'') =>
            .reviewed (reorderPlan plan0) executed block_errors
              (roundThoughts (reorderPlan plan0) blockThoughts
                (reviewerPhase env c'').1)
              (reviewerPhase env c'').1 (reviewerPhase env c'').2
      else if (reorderPlan plan0).conversational_response then
        .earlyText (reorderPlan plan0).summary_title
          (textOnlyGuidance (reorderPlan plan0)) c'
      else
        match env.textGen c'.textGen with
        | .error _ => .raised { c' with textGen := c'.textGen + 1 }
        | .ok out =>
            .earlyText (reorderPlan plan0).summary_title (pyStrip out)
              { c' with textGen := c'.textGen + 1 }

/-- The outcome of a whole run: an uncaught oracle exception, one of the
two early-exit reports (planner failure, pure-text plan), or the
assembled report (the Assembler phase). -/
inductive RunOutcome where
  | raised
  | plannerFailed (report : AnalyticsReport)
  | textOnly (report : AnalyticsReport)
  | assembled (report : AnalyticsReport)

/-- Observable trace of a run: how many rounds reached the reviewer
phase, the review results the state machine used (one per such round, in
order), the accumulated thought log, the final revision count, and the
final oracle call counters. -/
structure RunTrace where
  reviewCycles : Nat
  usedReviews : List ReviewResult
  thoughtLog : List String
  revisionCount : Nat
  counters : OracleCounters

/-- A completed run: outcome plus trace. -/
structure RunResult where
  outcome : RunOutcome
  trace : RunTrace

/-- The mutable locals of the orchestration loop (lines 203-205) together with
the trace accumulators. -/
structure LoopState where
  c : OracleCounters
  thought_log : List String
  review_result : Option ReviewResult
  revision_count : Nat
  usedReviews : List ReviewResult
  reviewCycles : Nat

/-- The per-round variables that survive the loop for the assembler
(`plan`, `executed_blocks`, `block_errors` of the last completed
round). -/
structure FinalVars where
  plan : ReportPlan
  executed_blocks : List ExecutedBlock
  block_errors : List String

/-- Build a trace from the loop state and final counters. -/
def mkTrace (st : LoopState) (c : OracleCounters) : RunTrace :=
  { reviewCycles := st.reviewCycles, usedReviews := st.usedReviews,
    thoughtLog := st.thought_log, revisionCount := st.revision_count,
    counters := c }

/-- The Assembler phase as entered from the loop (lines 513-581). -/
def finishRun (env : OrchEnv) (st : LoopState) (fv : FinalVars) : RunResult :=
  { outcome := .assembled (assemble env.report_id st.thought_log
      fv.executed_blocks fv.block_errors fv.plan.summary_title),
    trace := mkTrace st st.c }

/-- State update after a round that reached the reviewer: extend the
thought log, store the review result, bump the revision count on
rejection (line 505). -/
def stepState (st : LoopState) (r : ReviewResult) (thoughts : List String)
    (c : OracleCounters) : LoopState :=
  { c := c, thought_log := st.thought_log ++ thoughts,
    review_result := some r,
    revision_count := st.revision_count + (if r.approved then 0 else 1),
    usedReviews := st.usedReviews ++ [r],
    reviewCycles := st.reviewCycles + 1 }

/-- Process one revision round: handle the early exits, and after a
reviewed round either break to the Assembler (`if review_result.approved
or revision_count >= MAX_REVISIONS: break`, line 509) or continue with
`cont`. -/
def processRound (env : OrchEnv) (st : LoopState)
    (cont : LoopState → FinalVars → RunResult) : RunResult :=
  match runRound env st.c st.review_result st.revision_count with
  | .earlyPlanner c' =>
      { outcome := .plannerFailed (_make_early_exit_report env.report_id
          "Response"
          "I wasn\x27t able to plan a report for this question. Could you try rephrasing?"
          st.thought_log),
        trace := mkTrace st c' }
  | .earlyText title combined c' =>
      { outcome := .textOnly
          (_make_early_exit_report env.report_id title combined st.thought_log),
        trace := mkTrace st c' }
  | .raised c' => { outcome := .raised, trace := mkTrace st c' }
  | .reviewed plan executed block_errors thoughts r c' =>
      let st' := stepState st r thoughts c'
      if r.approved ∨ MAX_REVISIONS ≤ st'.revision_count then
        finishRun env st' ⟨plan, executed, block_errors⟩
      else cont st' ⟨plan, executed, block_errors⟩

/-- The remaining rounds of the `for` loop after the first; when `fuel`
runs out the loop is exhausted and control falls through to the
Assembler with the variables of the last round. -/
def orchLoop (env : OrchEnv) : Nat → LoopState → FinalVars → RunResult
  | 0, st, fv => finishRun env st fv
  | fuel + 1, st, _ => processRound env st fun st' fv' => orchLoop env fuel st' fv'

/-- The loop state at the start of a run (lines 203-205: empty thought
log, no review result, zero revisions; all call counters zero). -/
def initialState : LoopState :=
  { c := {}, thought_log := [], review_result := none, revision_count := 0,
    usedReviews := [], reviewCycles := 0 }

/-- orchestrator.py `run_analytics` (lines 190-581): the full
plan-execute-review-assemble state machine, `range(1 + MAX_REVISIONS)`
rounds at most. -/
def run_analytics (env : OrchEnv) : RunResult :=
  processRound env initialState fun st' fv' => orchLoop env MAX_REVISIONS st' fv'

/- ------------------------------------------------------------------ -/
/- Concrete inputs used by the witnesses below                         -/
/- ------------------------------------------------------------------ -/

def exQuery : QuerySpec :=
  { measures := ["a.m", "bad.m"]
    dimensions := ["a.d"]
    time_dimensions := some [{ dimension := "a.t" }, { dimension := "" }]
    filters := some [{ member := "bad.f", operator := "equals" }]
    order := some [("a.m.month", "asc"), ("zz.k", "desc")] }

def exPlan : ReportPlan :=
  { domain := .sales
    summary_title := "t"
    narrative_strategy := "n"
    blocks := [{ block_id := "block_1", purpose := "p",
                 spec := .table { title := "T", columns := [], query := exQuery } }] }

def exRows : List Row := [[("x", "1")]]

def exCube : CubeQuery := { measures := ["a.m"] }

def exSpec2 : QuerySpec := { measures := ["a.m2"] }

def execTransientThenOk (a : Nat) : Except CubeError (List Row) :=
  if a = 0 then .error (.timeout "timed out") else .ok exRows

def execAlwaysBad (_ : Nat) : Except CubeError (List Row) :=
  .error (.other "Unknown field")

def execBadThenOk (a : Nat) : Except CubeError (List Row) :=
  if a = 0 then .error (.httpStatus 400 "Bad Request") else .ok exRows

def corrNone (_ : Nat) (_ : CubeQuery) (_ : String) : Option QuerySpec := none

def corrFixed (_ : Nat) (_ : CubeQuery) (_ : String) : Option QuerySpec :=
  some exSpec2

def ebFail (i : String) (msg : String) : ExecutedBlock :=
  { block_id := i
    block_plan := { block_id := i, purpose := "p"
                    spec := .table { title := "T", columns := ["c"],
                                     query := { measures := ["a.m"] } } }
    cube_query := some exCube
    error := some msg }

def ebTen : ExecutedBlock :=
  { block_id := "block_10"
    block_plan := { block_id := "block_10", purpose := "p10"
                    spec := .text { text_guidance := none } }
    text_content := some "tenth" }

def ebTwo : ExecutedBlock :=
  { block_id := "block_2"
    block_plan := { block_id := "block_2", purpose := "p2"
                    spec := .text { text_guidance := none } }
    text_content := some "second" }

/-- The review result the state machine uses for the i-th reviewer-phase
call: the oracle output, or the approval default when the oracle
raises. -/
def reviewOf (env : OrchEnv) (i : Nat) : ReviewResult :=
  match env.reviewer i with
  | .ok r => r
  | .error _ =>
      { quality_score := 4, issues := [], revision_instructions := none,
        approved := true }

def planOneTable : LLMReportPlan :=
  { domain := .sales
    summary_title := "S"
    narrative_strategy := "N"
    blocks := [{ block_id := "block_1", purpose := "p",
                 spec := .table { title := "T", columns := ["c"],
                                  query := { measures := ["a.m"] } } }] }

def rejReview : ReviewResult := { quality_score := 2, approved := false }

/-- An environment whose reviewer rejects every round: the planner always
returns a one-data-block plan, the semantic service always fails with a
non-transient error, and correction is unavailable. -/
def envTwoRejects : OrchEnv :=
  { planner := fun _ => .ok planOneTable
    textGen := fun _ => .ok "text"
    reviewer := fun _ => .ok rejReview
    corrector := fun _ _ _ => none
    queryExec := fun _ => .error (.other "boom")
    valid_members := none
    report_id := "rid" }

/-- An environment whose review oracle raises on every call. -/
def envReviewerDown : OrchEnv :=
  { planner := fun _ => .ok planOneTable
    textGen := fun _ => .ok "text"
    reviewer := fun _ => .error ()
    corrector := fun _ _ _ => none
    queryExec := fun _ => .error (.other "boom")
    valid_members := none
    report_id := "rid" }

/- ------------------------------------------------------------------ -/
/- Theorems                                                            -/
/- ------------------------------------------------------------------ -/

section C6lemmas

variable {α : Type}

theorem filterMap_ite_mem_length (valid : List String) (l : List α)
    (ref : α → String) (msg : α → String) :
    (l.filterMap fun a => if ref a ∈ valid then none else some (msg a)).length
      = ((l.map ref).filter fun r => decide (r ∉ valid)).length := by
  induction l with
  | nil => rfl
  | cons a l ih =>
      by_cases h : ref a ∈ valid <;>
        simp [List.filterMap_cons, List.filter_cons, h, ih]

theorem filterMap_ite_mem_empty (valid : List String) (l : List α)
    (ref : α → String) (msg : α → String) :
    (l.filterMap fun a => if ref a ∈ valid then none else some (msg a)) = []
      ↔ ∀ a ∈ l, ref a ∈ valid := by
  induction l with
  | nil => simp
  | cons a l ih =>
      by_cases h : ref a ∈ valid <;>
        simp [List.filterMap_cons, h, ih]

theorem filterMap_guard_length (valid : List String) (l : List α)
    (field : α → String) (msg : α → String) :
    (l.filterMap fun a =>
        if field a ≠ "" ∧ field a ∉ valid then some (msg a) else none).length
      = (((l.filterMap fun a =>
            if field a = "" then none else some (field a)).filter
              fun r => decide (r ∉ valid))).length := by
  induction l with
  | nil => rfl
  | cons a l ih =>
      by_cases h0 : field a = "" <;> by_cases h1 : field a ∈ valid <;>
        simp [List.filterMap_cons, List.filter_cons, h0, h1, ih]

theorem filterMap_guard_empty (valid : List String) (l : List α)
    (field : α → String) (msg : α → String) :
    (l.filterMap fun a =>
        if field a ≠ "" ∧ field a ∉ valid then some (msg a) else none) = []
      ↔ ∀ a ∈ l, field a ≠ "" → field a ∈ valid := by
  induction l with
  | nil => simp
  | cons a l ih =>
      by_cases h0 : field a = "" <;> by_cases h1 : field a ∈ valid <;>
        simp [List.filterMap_cons, h0, h1, ih]

end C6lemmas

theorem queryMemberErrors_length (pfx : String) (q : QuerySpec)
    (valid : List String) :
    (queryMemberErrors pfx q valid).length
      = ((queryRefs q).filter fun r => decide (r ∉ valid)).length := by
  simp only [queryMemberErrors, queryRefs, List.filter_append, List.length_append]
  rw [filterMap_ite_mem_length valid q.measures (fun m => m),
      filterMap_ite_mem_length valid q.dimensions (fun d => d),
      filterMap_guard_length valid (q.time_dimensions.getD []) (fun td => td.dimension),
      filterMap_guard_length valid (q.filters.getD []) (fun f => f.member),
      filterMap_ite_mem_length valid (q.order.getD []) (fun kv => stripGranularity kv.1)]
  simp [List.map_id]

theorem queryMemberErrors_empty (pfx : String) (q : QuerySpec)
    (valid : List String) :
    queryMemberErrors pfx q valid = [] ↔ ∀ r ∈ queryRefs q, r ∈ valid := by
  simp only [queryMemberErrors, queryRefs, List.append_eq_nil, List.mem_append]
  rw [filterMap_ite_mem_empty valid q.measures (fun m => m),
      filterMap_ite_mem_empty valid q.dimensions (fun d => d),
      filterMap_guard_empty valid (q.time_dimensions.getD []) (fun td => td.dimension),
      filterMap_guard_empty valid (q.filters.getD []) (fun f => f.member),
      filterMap_ite_mem_empty valid (q.order.getD []) (fun kv => stripGranularity kv.1)]
  constructor
  · rintro ⟨⟨⟨⟨h1, h2⟩, h3⟩, h4⟩, h5⟩ r hr
    rcases hr with (((hr | hr) | hr) | hr) | hr
    · exact h1 r hr
    · exact h2 r hr
    · obtain ⟨td, htd, hne⟩ := List.mem_filterMap.mp hr
      by_cases h0 : td.dimension = ""
      · simp [h0] at hne
      · simp only [h0, if_false] at hne
        obtain rfl : td.dimension = r := by simpa using hne
        exact h3 td htd h0
    · obtain ⟨f, hf, hne⟩ := List.mem_filterMap.mp hr
      by_cases h0 : f.member = ""
      · simp [h0] at hne
      · simp only [h0, if_false] at hne
        obtain rfl : f.member = r := by simpa using hne
        exact h4 f hf h0
    · obtain ⟨kv, hkv, rfl⟩ := List.mem_map.mp hr
      exact h5 kv hkv
  · intro h
    refine ⟨⟨⟨⟨fun m hm => h m ?_, fun d hd => h d ?_⟩,
      fun td htd hne => h td.dimension ?_⟩,
      fun f hf hne => h f.member ?_⟩,
      fun kv hkv => h (stripGranularity kv.1) ?_⟩
    · exact Or.inl (Or.inl (Or.inl (Or.inl hm)))
    · exact Or.inl (Or.inl (Or.inl (Or.inr hd)))
    · exact Or.inl (Or.inl (Or.inr (List.mem_filterMap.mpr ⟨td, htd, by simp [hne]⟩)))
    · exact Or.inl (Or.inr (List.mem_filterMap.mpr ⟨f, hf, by simp [hne]⟩))
    · exact Or.inr (List.mem_map.mpr ⟨kv, hkv, rfl⟩)

theorem validate_plan_members_length (plan : ReportPlan)
    (valid : List String) :
    (_validate_plan_members plan valid).length
      = ((planRefs plan).filter fun r => decide (r ∉ valid)).length := by
  unfold _validate_plan_members planRefs
  induction plan.blocks with
  | nil => rfl
  | cons b bs ih =>
      cases hq : b.spec.dataQuery with
      | none => simpa [List.flatMap_cons, hq] using ih
      | some q =>
          simp only [List.flatMap_cons, hq, List.filter_append,
            List.length_append, ih, queryMemberErrors_length]

theorem validate_plan_members_empty (plan : ReportPlan)
    (valid : List String) :
    _validate_plan_members plan valid = [] ↔ ∀ r ∈ planRefs plan, r ∈ valid := by
  unfold _validate_plan_members planRefs
  induction plan.blocks with
  | nil => simp
  | cons b bs ih =>
      cases hq : b.spec.dataQuery with
      | none => simpa [List.flatMap_cons, hq] using ih
      | some q =>
          simp only [List.flatMap_cons, hq, List.append_eq_nil, ih,
            queryMemberErrors_empty, List.mem_append]
          constructor
          · rintro ⟨h1, h2⟩ r (hr | hr)
            · exact h1 r hr
            · exact h2 r hr
          · intro h
            exact ⟨fun r hr => h r (Or.inl hr), fun r hr => h r (Or.inr hr)⟩

theorem cache_fresh_hit (st : CacheState) (now : Int)
    (fetch : Except Unit CubeMeta) (t : String)
    (hs : st.cached_text = some t) (hfresh : now - st.cached_at < CACHE_TTL) :
    get_cube_meta_context st now fetch = ⟨t, st, false⟩ := by
  simp [get_cube_meta_context, hs, hfresh]

theorem cache_failure_path (st : CacheState) (now : Int)
    (hf : (get_cube_meta_context st now (.error ())).fetched = true) :
    (get_cube_meta_context st now (.error ())).value
        = st.cached_text.getD FALLBACK_TEXT
      ∧ (get_cube_meta_context st now (.error ())).state = st := by
  cases hs : st.cached_text with
  | none => simp [get_cube_meta_context, hs]
  | some t =>
      by_cases hfresh : now - st.cached_at < CACHE_TTL
      · simp [get_cube_meta_context, hs, hfresh] at hf
      · simp [get_cube_meta_context, hs, hfresh]

theorem cache_single_fetch (st : CacheState) (now now₂ : Int)
    (m : CubeMeta) (fetch₂ : Except Unit CubeMeta)
    (hwin : now₂ - now < CACHE_TTL) :
    (get_cube_meta_context st now (.ok m)).fetched.toNat
      + (get_cube_meta_context (get_cube_meta_context st now (.ok m)).state
          now₂ fetch₂).fetched.toNat ≤ 1 := by
  cases hs : st.cached_text with
  | none =>
      simp [get_cube_meta_context, hs, hwin]
  | some t =>
      by_cases hfresh : now - st.cached_at < CACHE_TTL
      · simp only [get_cube_meta_context, hs, hfresh, if_true, Bool.toNat_false,
          Nat.zero_add]
        cases fetch₂ <;> split <;> simp
      · simp [get_cube_meta_context, hs, hfresh, hwin]

theorem review_validate_bounds (qs : Int) (issues : List String)
    (ri : Option String) (ap : Bool) (r : ReviewResult)
    (h : ReviewResult.model_validate qs issues ri ap = some r) :
    1 ≤ r.quality_score ∧ r.quality_score ≤ 5 := by
  unfold ReviewResult.model_validate at h
  split at h
  · rename_i hc
    injection h with h
    subst h
    exact hc
  · exact absurd h (by simp)

theorem blockRetryGo_queryCalls_le (exec : Nat → Except CubeError (List Row))
    (correct : Nat → CubeQuery → String → Option QuerySpec) :
    ∀ fuel attempt q le dat qc cc sl,
      (blockRetryGo exec correct fuel attempt q le dat qc cc sl).queryCalls
        ≤ qc + fuel := by
  intro fuel
  induction fuel with
  | zero => intro attempt q le dat qc cc sl; simp [blockRetryGo]
  | succ n ih =>
      intro attempt q le dat qc cc sl
      unfold blockRetryGo
      cases exec attempt with
      | ok rows =>
          show qc + 1 ≤ qc + (n + 1)
          omega
      | error e =>
          dsimp only
          by_cases hmax : MAX_BLOCK_RETRIES ≤ attempt
          · rw [if_pos hmax]
            show qc + 1 ≤ qc + (n + 1)
            omega
          · rw [if_neg hmax]
            by_cases htr : _is_transient_error e = true
            · rw [if_pos htr]
              exact (ih _ _ _ _ _ _ _).trans (by omega)
            · rw [if_neg htr]
              simp only [_build_cube_query]
              cases correct cc q e.message with
              | none =>
                  show qc + 1 ≤ qc + (n + 1)
                  omega
              | some corrected =>
                  exact (ih _ _ _ _ _ _ _).trans (by omega)

theorem sleeps_range_succ (att n : ℕ) :
    (List.range (n + 1)).map
        (fun a => TRANSIENT_RETRY_DELAY * (((att + a : ℕ) : ℚ) + 1))
      = TRANSIENT_RETRY_DELAY * ((att : ℚ) + 1)
        :: (List.range n).map
          (fun a => TRANSIENT_RETRY_DELAY * (((att + 1 + a : ℕ) : ℚ) + 1)) := by
  rw [List.range_succ_eq_map, List.map_cons, List.map_map]
  refine congrArg₂ List.cons ?_ ?_
  · push_cast
    ring
  · refine List.map_congr_left fun a ha => ?_
    show TRANSIENT_RETRY_DELAY * (((att + (a + 1) : ℕ) : ℚ) + 1) = _
    push_cast
    ring

theorem retry_transient_aux (exec : Nat → Except CubeError (List Row))
    (correct : Nat → CubeQuery → String → Option QuerySpec) (rows : List Row) :
    ∀ k attempt fuel q le dat qc cc sl,
      attempt + k ≤ MAX_BLOCK_RETRIES →
      k < fuel →
      (∀ a, a < k → ∃ e, exec (attempt + a) = .error e ∧ _is_transient_error e = true) →
      exec (attempt + k) = .ok rows →
      blockRetryGo exec correct fuel attempt q le dat qc cc sl
        = ⟨q, none, some rows, qc + k + 1, cc,
           sl ++ (List.range k).map fun a =>
             TRANSIENT_RETRY_DELAY * (((attempt + a : ℕ) : ℚ) + 1)⟩ := by
  intro k
  induction k with
  | zero =>
      intro attempt fuel q le dat qc cc sl hbound hfuel hpre hok
      obtain ⟨f, rfl⟩ : ∃ f, fuel = f + 1 := ⟨fuel - 1, by omega⟩
      have hok' : exec attempt = .ok rows := hok
      unfold blockRetryGo
      rw [hok']
      simp

  | succ n ih =>
      intro attempt fuel q le dat qc cc sl hbound hfuel hpre hok
      obtain ⟨f, rfl⟩ : ∃ f, fuel = f + 1 := ⟨fuel - 1, by omega⟩
      obtain ⟨e, he, htr⟩ := hpre 0 (by omega)
      have he' : exec attempt = .error e := he
      unfold blockRetryGo
      rw [he']
      dsimp only
      rw [if_neg (show ¬ MAX_BLOCK_RETRIES ≤ attempt by omega), if_pos htr]
      rw [ih (attempt + 1) f q (some e.message) dat (qc + 1) cc
          (sl ++ [TRANSIENT_RETRY_DELAY * ((attempt : ℚ) + 1)])
          (by omega) (by omega)
          (fun a ha => by
            have := hpre (a + 1) (by omega)
            rwa [show attempt + (a + 1) = attempt + 1 + a by omega] at this)
          (by rwa [show attempt + 1 + n = attempt + (n + 1) by omega])]
      simp only [BlockRetryResult.mk.injEq, true_and, and_true]
      exact ⟨by omega,
        by rw [sleeps_range_succ, List.append_assoc, List.singleton_append]⟩

theorem retry_nontransient_stop_aux (exec : Nat → Except CubeError (List Row))
    (correct : Nat → CubeQuery → String → Option QuerySpec) (e : CubeError) :
    ∀ k attempt fuel q le dat qc cc sl,
      attempt + k < MAX_BLOCK_RETRIES →
      k < fuel →
      (∀ a, a < k → ∃ e', exec (attempt + a) = .error e' ∧ _is_transient_error e' = true) →
      exec (attempt + k) = .error e →
      _is_transient_error e = false →
      correct cc q e.message = none →
      blockRetryGo exec correct fuel attempt q le dat qc cc sl
        = ⟨q, some e.message, dat, qc + k + 1, cc + 1,
           sl ++ (List.range k).map fun a =>
             TRANSIENT_RETRY_DELAY * (((attempt + a : ℕ) : ℚ) + 1)⟩ := by
  intro k
  induction k with
  | zero =>
      intro attempt fuel q le dat qc cc sl hbound hfuel hpre herr htr hcorr
      obtain ⟨f, rfl⟩ : ∃ f, fuel = f + 1 := ⟨fuel - 1, by omega⟩
      have herr' : exec attempt = .error e := herr
      unfold blockRetryGo
      rw [herr']
      dsimp only
      rw [if_neg (show ¬ MAX_BLOCK_RETRIES ≤ attempt by omega),
        if_neg (show ¬ _is_transient_error e = true by simp [htr]), hcorr]
      simp

  | succ n ih =>
      intro attempt fuel q le dat qc cc sl hbound hfuel hpre herr htr hcorr
      obtain ⟨f, rfl⟩ : ∃ f, fuel = f + 1 := ⟨fuel - 1, by omega⟩
      obtain ⟨e0, he, htr0⟩ := hpre 0 (by omega)
      have he' : exec attempt = .error e0 := he
      unfold blockRetryGo
      rw [he']
      dsimp only
      rw [if_neg (show ¬ MAX_BLOCK_RETRIES ≤ attempt by omega), if_pos htr0]
      rw [ih (attempt + 1) f q (some e0.message) dat (qc + 1) cc
          (sl ++ [TRANSIENT_RETRY_DELAY * ((attempt : ℚ) + 1)])
          (by omega) (by omega)
          (fun a ha => by
            have := hpre (a + 1) (by omega)
            rwa [show attempt + (a + 1) = attempt + 1 + a by omega] at this)
          (by rwa [show attempt + 1 + n = attempt + (n + 1) by omega])
          htr hcorr]
      simp only [BlockRetryResult.mk.injEq, true_and, and_true]
      exact ⟨by omega,
        by rw [sleeps_range_succ, List.append_assoc, List.singleton_append]⟩

theorem retry_corrected_retry_aux (exec : Nat → Except CubeError (List Row))
    (correct : Nat → CubeQuery → String → Option QuerySpec) (e : CubeError)
    (spec : QuerySpec) (rows : List Row) :
    ∀ k attempt fuel q le dat qc cc sl,
      attempt + k < MAX_BLOCK_RETRIES →
      k + 1 < fuel →
      (∀ a, a < k → ∃ e', exec (attempt + a) = .error e' ∧ _is_transient_error e' = true) →
      exec (attempt + k) = .error e →
      _is_transient_error e = false →
      correct cc q e.message = some spec →
      exec (attempt + k + 1) = .ok rows →
      blockRetryGo exec correct fuel attempt q le dat qc cc sl
        = ⟨querySpecToCube spec, none, some rows, qc + k + 2, cc + 1,
           sl ++ (List.range k).map fun a =>
             TRANSIENT_RETRY_DELAY * (((attempt + a : ℕ) : ℚ) + 1)⟩ := by
  intro k
  induction k with
  | zero =>
      intro attempt fuel q le dat qc cc sl hbound hfuel hpre herr htr hcorr hok
      obtain ⟨f, rfl⟩ : ∃ f, fuel = f + 1 := ⟨fuel - 1, by omega⟩
      have herr' : exec attempt = .error e := herr
      unfold blockRetryGo
      rw [herr']
      dsimp only
      rw [if_neg (show ¬ MAX_BLOCK_RETRIES ≤ attempt by omega),
        if_neg (show ¬ _is_transient_error e = true by simp [htr]), hcorr]
      simp only [_build_cube_query]
      rw [retry_transient_aux exec correct rows 0 (attempt + 1) f
          (querySpecToCube spec) (some e.message) dat (qc + 1) (cc + 1) sl
          (by omega) (by omega) (fun a ha => absurd ha (by omega))
          (by rwa [Nat.add_zero, show attempt + 1 = attempt + 0 + 1 by omega])]
      simp

  | succ n ih =>
      intro attempt fuel q le dat qc cc sl hbound hfuel hpre herr htr hcorr hok
      obtain ⟨f, rfl⟩ : ∃ f, fuel = f + 1 := ⟨fuel - 1, by omega⟩
      obtain ⟨e0, he, htr0⟩ := hpre 0 (by omega)
      have he' : exec attempt = .error e0 := he
      unfold blockRetryGo
      rw [he']
      dsimp only
      rw [if_neg (show ¬ MAX_BLOCK_RETRIES ≤ attempt by omega), if_pos htr0]
      rw [ih (attempt + 1) f q (some e0.message) dat (qc + 1) cc
          (sl ++ [TRANSIENT_RETRY_DELAY * ((attempt : ℚ) + 1)])
          (by omega) (by omega)
          (fun a ha => by
            have := hpre (a + 1) (by omega)
            rwa [show attempt + (a + 1) = attempt + 1 + a by omega] at this)
          (by rwa [show attempt + 1 + n = attempt + (n + 1) by omega])
          htr hcorr
          (by rwa [show attempt + 1 + n + 1 = attempt + (n + 1) + 1 by omega])]
      simp only [BlockRetryResult.mk.injEq, true_and, and_true]
      exact ⟨by omega,
        by rw [sleeps_range_succ, List.append_assoc, List.singleton_append]⟩

/-- C6: For every ReportPlan and every set of valid member names,
`_validate_plan_members` returns one error message per checked reference
(measure, dimension, non-empty time-dimension field, non-empty filter
member, or order key stripped of a trailing granularity suffix) that is
not in the valid-name set, and returns the empty list exactly when all
those references in the data blocks of the plan are valid.  The function is
pure by construction (a Lean function of its two arguments). -/
theorem member_validator_correct (plan : ReportPlan) (valid_members : List String) :
    (_validate_plan_members plan valid_members).length
      = ((planRefs plan).filter fun r => decide (r ∉ valid_members)).length
    ∧ (_validate_plan_members plan valid_members = []
        ↔ ∀ r ∈ planRefs plan, r ∈ valid_members) :=
  ⟨validate_plan_members_length plan valid_members,
   validate_plan_members_empty plan valid_members⟩

/-- Witness for `member_validator_correct` at a concrete plan with three
invalid references. -/
theorem member_validator_correct_witness :
    _validate_plan_members exPlan ["a.m", "a.d", "a.t"]
      = ["Block block_1: invalid measure \x27bad.m\x27",
         "Block block_1: invalid filter member \x27bad.f\x27",
         "Block block_1: invalid order key \x27zz.k\x27"]
    ∧ (_validate_plan_members exPlan ["a.m", "a.d", "a.t"]).length
      = ((planRefs exPlan).filter fun r => decide (r ∉ (["a.m", "a.d", "a.t"] : List String))).length :=
  ⟨by decide, (member_validator_correct exPlan ["a.m", "a.d", "a.t"]).1⟩

/-- C7: For every call to the metadata cache (`get_cube_meta_context`):
a cached value younger than the TTL is returned unchanged with no fetch;
when the fetch fails, the stale cached value is returned if one exists
and the fixed `FALLBACK_TEXT` otherwise, with the state unchanged; and
two calls within one TTL window with no intervening failure perform at
most one fetch.  The embedding is a total function, matching the source
guarantee that the call never raises to the caller. -/
theorem metadata_cache_contract (st : CacheState) (now : Int)
    (fetch : Except Unit CubeMeta) :
    (∀ t, st.cached_text = some t → now - st.cached_at < CACHE_TTL →
       get_cube_meta_context st now fetch = ⟨t, st, false⟩)
    ∧ (∀ u : Unit, fetch = .error u →
       (get_cube_meta_context st now fetch).fetched = true →
       (get_cube_meta_context st now fetch).value
           = st.cached_text.getD FALLBACK_TEXT
         ∧ (get_cube_meta_context st now fetch).state = st)
    ∧ (∀ (m : CubeMeta) (now₂ : Int) (fetch₂ : Except Unit CubeMeta),
       fetch = .ok m → now₂ - now < CACHE_TTL →
       (get_cube_meta_context st now fetch).fetched.toNat
         + (get_cube_meta_context (get_cube_meta_context st now fetch).state
             now₂ fetch₂).fetched.toNat ≤ 1) := by
  refine ⟨fun t hs hfresh => cache_fresh_hit st now fetch t hs hfresh,
    fun u hu => ?_, fun m now₂ fetch₂ hm hwin => ?_⟩
  · cases u
    subst hu
    exact cache_failure_path st now
  · subst hm
    exact cache_single_fetch st now now₂ m fetch₂ hwin

/-- Witness for `metadata_cache_contract`: a fresh hit returns the cached
text without fetching; a fetch failure over a stale cache serves the
stale text; two calls inside one TTL window fetch at most once. -/
theorem metadata_cache_contract_witness :
    get_cube_meta_context ⟨some "cached", 0⟩ 10 (.error ())
      = ⟨"cached", ⟨some "cached", 0⟩, false⟩
    ∧ ((get_cube_meta_context ⟨some "stale", 0⟩ 400 (.error ())).value = "stale"
       ∧ (get_cube_meta_context ⟨some "stale", 0⟩ 400 (.error ())).state
           = ⟨some "stale", 0⟩)
    ∧ ((get_cube_meta_context ⟨none, 0⟩ 0 (.ok ⟨[]⟩)).fetched.toNat
        + (get_cube_meta_context
            (get_cube_meta_context ⟨none, 0⟩ 0 (.ok ⟨[]⟩)).state 10
            (.error ())).fetched.toNat ≤ 1) :=
  ⟨(metadata_cache_contract ⟨some "cached", 0⟩ 10 (.error ())).1 "cached" rfl
      (by decide),
   (metadata_cache_contract ⟨some "stale", 0⟩ 400 (.error ())).2.1 () rfl
      (by decide),
   (metadata_cache_contract ⟨none, 0⟩ 0 (.ok ⟨[]⟩)).2.2 ⟨[]⟩ 10 (.error ()) rfl
      (by decide)⟩

/-- C9 (counterexample): the claim says every ReviewResult satisfies
quality_score ≥ 4 → approved; but pydantic validation of the model only
enforces the [1,5] score range, so it accepts the concrete value
quality_score = 5, approved = false, which violates the claimed
implication. -/
theorem review_threshold_not_enforced :
    ReviewResult.model_validate 5 [] none false
      = some { quality_score := 5, issues := [], revision_instructions := none,
               approved := false }
    ∧ (4 : Int) ≤ 5
    ∧ ({ quality_score := 5, issues := [], revision_instructions := none,
         approved := false } : ReviewResult).approved = false := by
  refine ⟨?_, by decide, rfl⟩
  decide

/-- C9 (amended): every ReviewResult accepted by model validation
has an integral quality_score in [1,5]; the approval threshold
(score ≥ 4 ⇒ approved) is only requested of the reviewer oracle in its
prompt and is not enforced by validation. -/
theorem review_score_range (qs : Int) (issues : List String)
    (ri : Option String) (ap : Bool) (r : ReviewResult)
    (h : ReviewResult.model_validate qs issues ri ap = some r) :
    1 ≤ r.quality_score ∧ r.quality_score ≤ 5 :=
  review_validate_bounds qs issues ri ap r h

/-- Witness for `review_score_range` at the orchestrator fallback
value `ReviewResult(quality_score=4, approved=True)`. -/
theorem review_score_range_witness :
    ReviewResult.model_validate 4 [] none true
      = some { quality_score := 4, issues := [], revision_instructions := none,
               approved := true }
    ∧ 1 ≤ ({ quality_score := 4, issues := [], revision_instructions := none,
             approved := true } : ReviewResult).quality_score
    ∧ ({ quality_score := 4, issues := [], revision_instructions := none,
         approved := true } : ReviewResult).quality_score ≤ 5 :=
  ⟨by decide,
   (review_score_range 4 [] none true _ (by decide)).1,
   (review_score_range 4 [] none true _ (by decide)).2⟩

/-- C2: for every data block execution reaching the retry loop, the
number of semantic-service calls (`execute_cube_query` invocations) is at
most `1 + MAX_BLOCK_RETRIES`, whatever the service and the
query-correction oracle do — so correction attempts never push the total
beyond the bound. -/
theorem block_retry_query_call_bound
    (exec : Nat → Except CubeError (List Row))
    (correct : Nat → CubeQuery → String → Option QuerySpec)
    (cube_query : CubeQuery) :
    (runBlockRetry exec correct cube_query).queryCalls
      ≤ 1 + MAX_BLOCK_RETRIES := by
  have h := blockRetryGo_queryCalls_le exec correct (1 + MAX_BLOCK_RETRIES) 0
    cube_query none none 0 0 []
  simpa [runBlockRetry] using h

/-- C3: dispatch on the class of a failed attempt, with retry budget
remaining.  (a) If every failure before the first success is transient,
the loop sleeps `TRANSIENT_RETRY_DELAY * attempt_index` before each retry,
never invokes the corrector, and retries the same query, so the resolved
query equals the original.  (b) On a non-transient failure the corrector
is invoked once for that failure; if it yields nothing the loop stops
immediately: total service calls stay at the count of the failing attempt.
(c) If it yields a spec, the rebuilt corrected query is retried and on
success becomes the resolved query.  (In this embedding rebuilding a
well-typed corrected spec always succeeds — the rebuild-failure
branch guards dynamic typing only.) -/
theorem retry_error_dispatch :
    (∀ (exec : Nat → Except CubeError (List Row))
       (correct : Nat → CubeQuery → String → Option QuerySpec)
       (q0 : CubeQuery) (k : Nat) (rows : List Row),
       k ≤ MAX_BLOCK_RETRIES →
       (∀ a, a < k → ∃ e, exec a = .error e ∧ _is_transient_error e = true) →
       exec k = .ok rows →
       runBlockRetry exec correct q0
         = ⟨q0, none, some rows, k + 1, 0,
            (List.range k).map fun (a : ℕ) =>
              TRANSIENT_RETRY_DELAY * ((a : ℚ) + 1)⟩)
    ∧ (∀ (exec : Nat → Except CubeError (List Row))
       (correct : Nat → CubeQuery → String → Option QuerySpec)
       (q0 : CubeQuery) (a : Nat) (e : CubeError),
       a < MAX_BLOCK_RETRIES →
       (∀ j, j < a → ∃ e', exec j = .error e' ∧ _is_transient_error e' = true) →
       exec a = .error e →
       _is_transient_error e = false →
       correct 0 q0 e.message = none →
       runBlockRetry exec correct q0
         = ⟨q0, some e.message, none, a + 1, 1,
            (List.range a).map fun (j : ℕ) =>
              TRANSIENT_RETRY_DELAY * ((j : ℚ) + 1)⟩)
    ∧ (∀ (exec : Nat → Except CubeError (List Row))
       (correct : Nat → CubeQuery → String → Option QuerySpec)
       (q0 : CubeQuery) (a : Nat) (e : CubeError) (spec : QuerySpec)
       (rows : List Row),
       a < MAX_BLOCK_RETRIES →
       (∀ j, j < a → ∃ e', exec j = .error e' ∧ _is_transient_error e' = true) →
       exec a = .error e →
       _is_transient_error e = false →
       correct 0 q0 e.message = some spec →
       exec (a + 1) = .ok rows →
       runBlockRetry exec correct q0
         = ⟨querySpecToCube spec, none, some rows, a + 2, 1,
            (List.range a).map fun (j : ℕ) =>
              TRANSIENT_RETRY_DELAY * ((j : ℚ) + 1)⟩) := by
  refine ⟨fun exec correct q0 k rows hk hpre hok => ?_,
    fun exec correct q0 a e ha hpre herr htr hcorr => ?_,
    fun exec correct q0 a e spec rows ha hpre herr htr hcorr hok => ?_⟩
  · rw [runBlockRetry,
      retry_transient_aux exec correct rows k 0 (1 + MAX_BLOCK_RETRIES) q0
        none none 0 0 [] (by omega) (by omega)
        (fun a ha => by simpa using hpre a ha) (by simpa using hok)]
    simp [Nat.zero_add]
  · rw [runBlockRetry,
      retry_nontransient_stop_aux exec correct e a 0 (1 + MAX_BLOCK_RETRIES) q0
        none none 0 0 [] (by omega) (by omega)
        (fun j hj => by simpa using hpre j hj) (by simpa using herr) htr hcorr]
    simp [Nat.zero_add]
  · rw [runBlockRetry,
      retry_corrected_retry_aux exec correct e spec rows a 0 (1 + MAX_BLOCK_RETRIES)
        q0 none none 0 0 [] (by omega) (by omega)
        (fun j hj => by simpa using hpre j hj) (by simpa using herr) htr hcorr
        (by simpa using hok)]
    simp [Nat.zero_add]

/-- Witness for `retry_error_dispatch`: a transient failure then success
(same query, one sleep), a non-transient failure with no correction (one
call, stop), and a non-transient failure with a successful correction
(corrected query retried and resolved). -/
theorem retry_error_dispatch_witness :
    runBlockRetry execTransientThenOk corrNone exCube
      = ⟨exCube, none, some exRows, 2, 0,
         (List.range 1).map fun (a : ℕ) =>
           TRANSIENT_RETRY_DELAY * ((a : ℚ) + 1)⟩
    ∧ runBlockRetry execAlwaysBad corrNone exCube
      = ⟨exCube, some "Unknown field", none, 1, 1,
         (List.range 0).map fun (j : ℕ) =>
           TRANSIENT_RETRY_DELAY * ((j : ℚ) + 1)⟩
    ∧ runBlockRetry execBadThenOk corrFixed exCube
      = ⟨querySpecToCube exSpec2, none, some exRows, 2, 1,
         (List.range 0).map fun (j : ℕ) =>
           TRANSIENT_RETRY_DELAY * ((j : ℚ) + 1)⟩ :=
  ⟨retry_error_dispatch.1 execTransientThenOk corrNone exCube 1 exRows
      (by decide)
      (fun a ha => by
        interval_cases a
        exact ⟨.timeout "timed out", rfl, rfl⟩)
      rfl,
   retry_error_dispatch.2.1 execAlwaysBad corrNone exCube 0 (.other "Unknown field")
      (by decide) (fun j hj => absurd hj (by omega)) rfl rfl rfl,
   retry_error_dispatch.2.2 execBadThenOk corrFixed exCube 0
      (.httpStatus 400 "Bad Request") exSpec2 exRows
      (by decide) (fun j hj => absurd hj (by omega)) rfl rfl rfl rfl⟩

theorem lexLe_total : ∀ as bs : List Char, lexLe as bs = true ∨ lexLe bs as = true := by
  intro as
  induction as with
  | nil => intro bs; left; rfl
  | cons a as ih =>
      intro bs
      cases bs with
      | nil => right; rfl
      | cons b bs =>
          simp only [lexLe]
          by_cases hab : a.val < b.val
          · left
            rw [if_pos hab]
          · by_cases hba : b.val < a.val
            · right
              rw [if_pos hba]
            · rw [if_neg hab, if_neg hba, if_neg hba, if_neg hab]
              exact ih bs

theorem lexLe_trans :
    ∀ as bs cs : List Char,
      lexLe as bs = true → lexLe bs cs = true → lexLe as cs = true := by
  intro as
  induction as with
  | nil => intro bs cs h1 h2; rfl
  | cons a as ih =>
      intro bs cs h1 h2
      cases bs with
      | nil => simp [lexLe] at h1
      | cons b bs =>
          cases cs with
          | nil => simp [lexLe] at h2
          | cons c cs =>
              simp only [lexLe] at h1 h2 ⊢
              have hab' : ¬ a.val < b.val → ¬ b.val < a.val → a = b := fun h h' =>
                Char.ext (UInt32.ext (by
                  have p1 : ¬ a.val.toNat < b.val.toNat := h
                  have p2 : ¬ b.val.toNat < a.val.toNat := h'
                  omega))
              by_cases hab : a.val < b.val
              · by_cases hbc : b.val < c.val
                · have hac : a.val.toNat < c.val.toNat := Nat.lt_trans hab hbc
                  have hac2 : a.val < c.val := hac
                  rw [if_pos hac2]
                · by_cases hcb : c.val < b.val
                  · rw [if_neg hbc, if_pos hcb] at h2
                    simp at h2
                  · obtain rfl : b = c := Char.ext (UInt32.ext (by
                      have p1 : ¬ b.val.toNat < c.val.toNat := hbc
                      have p2 : ¬ c.val.toNat < b.val.toNat := hcb
                      omega))
                    rw [if_pos hab]
              · by_cases hba : b.val < a.val
                · rw [if_neg hab, if_pos hba] at h1
                  simp at h1
                · obtain rfl : a = b := hab' hab hba
                  rw [if_neg hab, if_neg hba] at h1
                  by_cases hbc : a.val < c.val
                  · rw [if_pos hbc]
                  · by_cases hcb : c.val < a.val
                    · rw [if_neg hbc, if_pos hcb] at h2
                      simp at h2
                    · rw [if_neg hbc, if_neg hcb] at h2 ⊢
                      exact ih bs cs h1 h2

theorem lexLe_antisymm :
    ∀ as bs : List Char, lexLe as bs = true → lexLe bs as = true → as = bs := by
  intro as
  induction as with
  | nil =>
      intro bs h1 h2
      cases bs with
      | nil => rfl
      | cons b bs => simp [lexLe] at h2
  | cons a as ih =>
      intro bs h1 h2
      cases bs with
      | nil => simp [lexLe] at h1
      | cons b bs =>
          simp only [lexLe] at h1 h2
          by_cases hab : a.val < b.val
          · have hba : ¬ b.val < a.val := by
              have p : a.val.toNat < b.val.toNat := hab
              have : ¬ b.val.toNat < a.val.toNat := by omega
              exact this
            rw [if_neg hba, if_pos hab] at h2
            simp at h2
          · by_cases hba : b.val < a.val
            · rw [if_neg hab, if_pos hba] at h1
              simp at h1
            · obtain rfl : a = b := Char.ext (UInt32.ext (by
                have p1 : ¬ a.val.toNat < b.val.toNat := hab
                have p2 : ¬ b.val.toNat < a.val.toNat := hba
                omega))
              rw [if_neg hab, if_neg hab] at h1 h2
              rw [ih bs h1 h2]

theorem strLe_total (a b : String) : strLe a b = true ∨ strLe b a = true :=
  lexLe_total a.data b.data

theorem strLe_trans (a b c : String) :
    strLe a b = true → strLe b c = true → strLe a c = true :=
  lexLe_trans a.data b.data c.data

theorem strLe_antisymm (a b : String) :
    strLe a b = true → strLe b a = true → a = b := by
  intro h1 h2
  have := lexLe_antisymm a.data b.data h1 h2
  cases a
  cases b
  exact congrArg String.mk this

theorem convertOne_of_error (eb : ExecutedBlock) (h : eb.error.isSome = true) :
    convertOne eb = [] := by
  simp [convertOne, h]

theorem convertExecuted_filter_errors (l : List ExecutedBlock) :
    convertExecuted l = convertExecuted (l.filter fun eb => eb.error.isNone) := by
  induction l with
  | nil => rfl
  | cons eb l ih =>
      cases herr : eb.error with
      | some e =>
          have h1 : eb.error.isSome = true := by simp [herr]
          have h2 : eb.error.isNone = false := by simp [herr]
          simp only [convertExecuted, List.flatMap_cons, List.filter_cons, h2,
            convertOne_of_error eb h1, List.nil_append]
          exact ih
      | none =>
          have h2 : eb.error.isNone = true := by simp [herr]
          simp only [convertExecuted, List.flatMap_cons, List.filter_cons, h2,
            if_true]
          rw [← convertExecuted, ← convertExecuted, ih]

theorem convertExecuted_nil_of_all_error (l : List ExecutedBlock)
    (h : ∀ eb ∈ l, eb.error.isSome = true) : convertExecuted l = [] := by
  induction l with
  | nil => rfl
  | cons eb l ih =>
      simp only [convertExecuted, List.flatMap_cons,
        convertOne_of_error eb (h eb (by simp)), List.nil_append]
      exact ih fun x hx => h x (by simp [hx])

theorem convertOne_not_thought (eb : ExecutedBlock) :
    ∀ b ∈ convertOne eb, b.isThought = false := by
  intro b hb
  unfold convertOne at hb
  split at hb
  · simp at hb
  · split at hb
    · split at hb
      · simp at hb
        subst hb
        rfl
      · simp at hb
    · split at hb
      · simp at hb
        subst hb
        rfl
      · simp at hb
    · split at hb
      · simp at hb
        subst hb
        rfl
      · simp at hb
    · split at hb
      · simp at hb
        subst hb
        rfl
      · simp at hb

theorem convertExecuted_not_thought (l : List ExecutedBlock) :
    ∀ b ∈ convertExecuted l, b.isThought = false := by
  intro b hb
  obtain ⟨eb, _, hmem⟩ := List.mem_flatMap.mp hb
  exact convertOne_not_thought eb b hmem

theorem thought_blocks_not_renderable (tl : List String) :
    (tl.map AnalyticsBlock.thought).any AnalyticsBlock.isRenderable = false := by
  induction tl with
  | nil => rfl
  | cons t tl ih => simp [List.any_cons, AnalyticsBlock.isRenderable, ih]

theorem sortExecuted_perm (l : List ExecutedBlock) : (sortExecuted l).Perm l :=
  List.perm_insertionSort blockIdLe l

/-- C4: executed blocks carrying an error are excluded from the report
(the conversion of the sorted blocks only depends on the error-free
ones); when every executed block failed, the assembled blocks are exactly
the thought log followed by one synthesized text block enumerating the
aggregated error list; and the assembled report always contains at least
one renderable block. -/
theorem assembler_error_propagation (rid : String) (tl : List String)
    (ebs : List ExecutedBlock) (errs : List String) (title : String) :
    convertExecuted (sortExecuted ebs)
      = convertExecuted ((sortExecuted ebs).filter fun eb => eb.error.isNone)
    ∧ ((∀ eb ∈ ebs, eb.error.isSome = true) →
       (assemble rid tl ebs errs title).blocks
         = tl.map AnalyticsBlock.thought
           ++ [AnalyticsBlock.text (errorFallbackText errs)])
    ∧ ∃ b ∈ (assemble rid tl ebs errs title).blocks, b.isRenderable = true := by
  refine ⟨convertExecuted_filter_errors _, fun h => ?_, ?_⟩
  · simp only [assemble]
    rw [convertExecuted_nil_of_all_error _
      (fun eb hmem => h eb ((sortExecuted_perm ebs).subset hmem))]
    rw [List.append_nil,
      if_neg (by simp [thought_blocks_not_renderable tl])]
  · simp only [assemble]
    by_cases hany : (tl.map AnalyticsBlock.thought
        ++ convertExecuted (sortExecuted ebs)).any AnalyticsBlock.isRenderable
        = true
    · rw [if_pos hany]
      obtain ⟨b, hb, hr⟩ := List.any_eq_true.mp hany
      exact ⟨b, hb, hr⟩
    · rw [if_neg hany]
      exact ⟨.text (errorFallbackText errs), by simp, rfl⟩

/-- Witness for `assembler_error_propagation`: three failed data blocks
assemble into exactly one synthesized text block listing the three
errors. -/
theorem assembler_error_propagation_witness :
    (assemble "r" [] [ebFail "block_1" "boom1", ebFail "block_2" "boom2",
        ebFail "block_3" "boom3"]
      ["Block block_1: boom1", "Block block_2: boom2", "Block block_3: boom3"]
      "T").blocks
      = [AnalyticsBlock.text (errorFallbackText
          ["Block block_1: boom1", "Block block_2: boom2",
           "Block block_3: boom3"])]
    ∧ errorFallbackText
        ["Block block_1: boom1", "Block block_2: boom2", "Block block_3: boom3"]
      = "I encountered errors while executing the data queries. "
        ++ "Errors: Block block_1: boom1; Block block_2: boom2; Block block_3: boom3"
        ++ "\n\nCould you try rephrasing your question?" :=
  ⟨by
    have h := (assembler_error_propagation "r" []
      [ebFail "block_1" "boom1", ebFail "block_2" "boom2", ebFail "block_3" "boom3"]
      ["Block block_1: boom1", "Block block_2: boom2", "Block block_3: boom3"]
      "T").2.1 (by decide)
    simpa using h,
   by rfl⟩

theorem sortExecuted_sorted (l : List ExecutedBlock) :
    List.Sorted blockIdLe (sortExecuted l) := by
  haveI : IsTotal ExecutedBlock blockIdLe := ⟨fun a b => strLe_total _ _⟩
  haveI : IsTrans ExecutedBlock blockIdLe := ⟨fun a b c => strLe_trans _ _ _⟩
  exact List.sorted_insertionSort blockIdLe l

theorem sortExecuted_eq_of_perm (ebs₁ ebs₂ : List ExecutedBlock)
    (hperm : ebs₁.Perm ebs₂)
    (hnd : (ebs₁.map ExecutedBlock.block_id).Nodup) :
    sortExecuted ebs₁ = sortExecuted ebs₂ := by
  haveI : IsAntisymm ExecutedBlock
      (fun a b => blockIdLe a b ∧ a.block_id ≠ b.block_id) :=
    ⟨fun a b h1 h2 => absurd (strLe_antisymm _ _ h1.1 h2.1) h1.2⟩
  have hsymm : ∀ {x y : ExecutedBlock},
      x.block_id ≠ y.block_id → y.block_id ≠ x.block_id :=
    fun h => h.symm
  have hp1 : (sortExecuted ebs₁).Pairwise
      (fun a b => a.block_id ≠ b.block_id) :=
    ((sortExecuted_perm ebs₁).pairwise_iff hsymm).mpr (List.pairwise_map.mp hnd)
  have hnd₂ : (ebs₂.map ExecutedBlock.block_id).Nodup :=
    ((hperm.map ExecutedBlock.block_id).nodup_iff).mp hnd
  have hp2 : (sortExecuted ebs₂).Pairwise
      (fun a b => a.block_id ≠ b.block_id) :=
    ((sortExecuted_perm ebs₂).pairwise_iff hsymm).mpr (List.pairwise_map.mp hnd₂)
  exact List.eq_of_perm_of_sorted
    ((sortExecuted_perm ebs₁).trans (hperm.trans (sortExecuted_perm ebs₂).symm))
    ((sortExecuted_sorted ebs₁).and hp1)
    ((sortExecuted_sorted ebs₂).and hp2)

/-- C5: assembly is a function of the executed-block set (with distinct
block ids) and the thought log, independent of execution order; the
executed blocks are emitted in ascending block-id order; and all thought
blocks (in log order) precede the non-thought blocks. -/
theorem assemble_deterministic (rid : String) (tl : List String)
    (errs : List String) (title : String) (ebs₁ ebs₂ : List ExecutedBlock)
    (hperm : ebs₁.Perm ebs₂)
    (hnd : (ebs₁.map ExecutedBlock.block_id).Nodup) :
    assemble rid tl ebs₁ errs title = assemble rid tl ebs₂ errs title
    ∧ List.Sorted blockIdLe (sortExecuted ebs₁)
    ∧ ∃ rest, (assemble rid tl ebs₁ errs title).blocks
        = tl.map AnalyticsBlock.thought ++ rest
        ∧ ∀ b ∈ rest, b.isThought = false := by
  have hsort := sortExecuted_eq_of_perm ebs₁ ebs₂ hperm hnd
  refine ⟨by simp only [assemble, hsort], sortExecuted_sorted ebs₁, ?_⟩
  simp only [assemble]
  by_cases hany : (tl.map AnalyticsBlock.thought
      ++ convertExecuted (sortExecuted ebs₁)).any AnalyticsBlock.isRenderable
      = true
  · rw [if_pos hany]
    exact ⟨convertExecuted (sortExecuted ebs₁), rfl,
      convertExecuted_not_thought _⟩
  · rw [if_neg hany]
    refine ⟨convertExecuted (sortExecuted ebs₁)
        ++ [AnalyticsBlock.text (errorFallbackText errs)],
      by rw [List.append_assoc], fun b hb => ?_⟩
    rcases List.mem_append.mp hb with hb | hb
    · exact convertExecuted_not_thought _ b hb
    · simp only [List.mem_singleton] at hb
      subst hb
      rfl

/-- Witness for `assemble_deterministic`: two executed blocks assembled
in either execution order yield the same report. -/
theorem assemble_deterministic_witness :
    assemble "r" ["th"] [ebTwo, ebTen] [] "T"
      = assemble "r" ["th"] [ebTen, ebTwo] [] "T"
    ∧ List.Sorted blockIdLe (sortExecuted [ebTwo, ebTen]) :=
  ⟨(assemble_deterministic "r" ["th"] [] "T" [ebTwo, ebTen] [ebTen, ebTwo]
      (by decide) (by decide)).1,
   (assemble_deterministic "r" ["th"] [] "T" [ebTwo, ebTen] [ebTen, ebTwo]
      (by decide) (by decide)).2.1⟩

/-- C10: the assembler orders executed blocks by lexicographic (code
point) comparison of the block_id string, not numerically: "block_10"
sorts before "block_2", so the content of "block_10" is placed before the
content of "block_2" in the assembled report. -/
theorem block_id_sort_lexicographic :
    strLe "block_10" "block_2" = true
    ∧ strLe "block_2" "block_10" = false
    ∧ sortExecuted [ebTwo, ebTen] = [ebTen, ebTwo]
    ∧ (assemble "r" [] [ebTwo, ebTen] [] "T").blocks
      = [AnalyticsBlock.text "tenth", AnalyticsBlock.text "second"] :=
  ⟨by decide, by decide, by decide, by decide⟩

/-- Inversion of `processRound` for a planner-failure round. -/
theorem processRound_earlyPlanner {env : OrchEnv} {st : LoopState}
    {cont : LoopState → FinalVars → RunResult} {c' : OracleCounters}
    (h : runRound env st.c st.review_result st.revision_count
      = .earlyPlanner c') :
    processRound env st cont
      = ⟨.plannerFailed (_make_early_exit_report env.report_id "Response"
          "I wasn\x27t able to plan a report for this question. Could you try rephrasing?"
          st.thought_log), mkTrace st c'⟩ := by
  unfold processRound
  rw [h]

theorem processRound_earlyText {env : OrchEnv} {st : LoopState}
    {cont : LoopState → FinalVars → RunResult} {title combined : String}
    {c' : OracleCounters}
    (h : runRound env st.c st.review_result st.revision_count
      = .earlyText title combined c') :
    processRound env st cont
      = ⟨.textOnly (_make_early_exit_report env.report_id title combined
          st.thought_log), mkTrace st c'⟩ := by
  unfold processRound
  rw [h]

theorem processRound_raised {env : OrchEnv} {st : LoopState}
    {cont : LoopState → FinalVars → RunResult} {c' : OracleCounters}
    (h : runRound env st.c st.review_result st.revision_count = .raised c') :
    processRound env st cont = ⟨.raised, mkTrace st c'⟩ := by
  unfold processRound
  rw [h]

theorem processRound_reviewed {env : OrchEnv} {st : LoopState}
    {cont : LoopState → FinalVars → RunResult} {plan : ReportPlan}
    {ex : List ExecutedBlock} {be : List String} {th : List String}
    {r : ReviewResult} {c' : OracleCounters}
    (h : runRound env st.c st.review_result st.revision_count
      = .reviewed plan ex be th r c') :
    processRound env st cont
      = if r.approved = true
            ∨ MAX_REVISIONS ≤ (stepState st r th c').revision_count then
          finishRun env (stepState st r th c') ⟨plan, ex, be⟩
        else cont (stepState st r th c') ⟨plan, ex, be⟩ := by
  unfold processRound
  rw [h]

/-- C1: every run performs at most `1 + MAX_REVISIONS` Planning→Reviewing
cycles, and once the revision count reaches MAX_REVISIONS the run breaks
to the Assembler even if the last review was not approved: after two
consecutive rejections (MAX_REVISIONS = 2) the outcome is an assembled
report. -/
theorem revision_cycle_bound (env : OrchEnv) :
    (run_analytics env).trace.reviewCycles ≤ 1 + MAX_REVISIONS
    ∧ (∀ r1 r2, (run_analytics env).trace.usedReviews = [r1, r2] →
        r1.approved = false → r2.approved = false →
        ∃ rep, (run_analytics env).outcome = .assembled rep) := by
  have hrun : run_analytics env = processRound env initialState
      (fun st' fv' => orchLoop env MAX_REVISIONS st' fv') := rfl
  rw [hrun]
  cases h0 : runRound env initialState.c initialState.review_result
      initialState.revision_count with
  | earlyPlanner c1 =>
      rw [processRound_earlyPlanner h0]
      simp [mkTrace, initialState, MAX_REVISIONS]
  | earlyText title combined c1 =>
      rw [processRound_earlyText h0]
      simp [mkTrace, initialState, MAX_REVISIONS]
  | raised c1 =>
      rw [processRound_raised h0]
      simp [mkTrace, initialState, MAX_REVISIONS]
  | reviewed plan ex be th r c1 =>
      rw [processRound_reviewed h0]
      by_cases hbr : (r.approved = true
          ∨ MAX_REVISIONS ≤ (stepState initialState r th c1).revision_count)
      · rw [if_pos hbr]
        simp [finishRun, mkTrace, stepState, initialState, MAX_REVISIONS]
      · rw [if_neg hbr]
        show ((orchLoop env MAX_REVISIONS (stepState initialState r th c1)
            ⟨plan, ex, be⟩).trace.reviewCycles ≤ 1 + MAX_REVISIONS ∧ _)
        rw [show MAX_REVISIONS = 1 + 1 from rfl]
        rw [orchLoop]
        cases h1 : runRound env (stepState initialState r th c1).c
            (stepState initialState r th c1).review_result
            (stepState initialState r th c1).revision_count with
        | earlyPlanner c2 =>
            rw [processRound_earlyPlanner h1]
            simp [mkTrace, stepState, initialState]
        | earlyText title combined c2 =>
            rw [processRound_earlyText h1]
            simp [mkTrace, stepState, initialState]
        | raised c2 =>
            rw [processRound_raised h1]
            simp [mkTrace, stepState, initialState]
        | reviewed plan2 ex2 be2 th2 r2 c2 =>
            rw [processRound_reviewed h1]
            have hna : r.approved = false := by
              rcases Bool.eq_false_or_eq_true r.approved with h | h
              · exact absurd (Or.inl h) hbr
              · exact h
            have hcond : (r2.approved = true
                ∨ MAX_REVISIONS ≤ (stepState (stepState initialState r th c1)
                    r2 th2 c2).revision_count) := by
              rcases Bool.eq_false_or_eq_true r2.approved with h2 | h2
              · exact Or.inl h2
              · right
                simp [stepState, initialState, hna, h2, MAX_REVISIONS]
            rw [if_pos hcond]
            simp [finishRun, mkTrace, stepState, initialState]

theorem plannerPhase_reviewer (env : OrchEnv) (c : OracleCounters) :
    (plannerPhase env c).2.reviewer = c.reviewer := by
  unfold plannerPhase
  cases env.planner c.planner with
  | error u => rfl
  | ok raw =>
      dsimp only
      cases env.valid_members with
      | none => rfl
      | some vm =>
          dsimp only
          by_cases h : (_validate_plan_members (llm_plan_to_report_plan raw)
              vm).isEmpty = true
          · rw [if_pos h]
          · rw [if_neg h]
            cases env.planner (c.planner + 1) <;> rfl

theorem execBlocksGo_reviewer_ok (env : OrchEnv) (total : Nat) :
    ∀ (blocks : List BlockPlan) (idx : Nat) (c : OracleCounters)
      (executed : List ExecutedBlock) (be th : List String)
      {e' : List ExecutedBlock} {be' th' : List String} {c' : OracleCounters},
      execBlocksGo env total blocks idx c executed be th
        = .ok (e', be', th', c') →
      c'.reviewer = c.reviewer := by
  intro blocks
  induction blocks with
  | nil =>
      intro idx c executed be th e' be' th' c' h
      simp only [execBlocksGo, Except.ok.injEq, Prod.mk.injEq] at h
      obtain ⟨-, -, -, h4⟩ := h
      rw [← h4]
  | cons bp rest ih =>
      intro idx c executed be th e' be' th' c' h
      unfold execBlocksGo at h
      split at h
      · split at h
        · exact absurd h (by simp)
        · dsimp only at h
          exact (ih _ _ _ _ _ h).trans rfl
      · split at h
        · dsimp only at h
          exact (ih _ _ _ _ _ h).trans rfl
        · dsimp only at h
          split at h
          · exact (ih _ _ _ _ _ h).trans rfl
          · exact (ih _ _ _ _ _ h).trans rfl

theorem runRound_reviewed_inv {env : OrchEnv} {c : OracleCounters}
    {rr : Option ReviewResult} {rc : Nat} {plan : ReportPlan}
    {ex : List ExecutedBlock} {be th : List String} {r : ReviewResult}
    {c' : OracleCounters}
    (h : runRound env c rr rc = .reviewed plan ex be th r c') :
    r = reviewOf env c.reviewer ∧ c'.reviewer = c.reviewer + 1 := by
  unfold runRound at h
  split at h
  · exact absurd h (by simp)
  · rename_i plan0 c1 heqpl
    have hc1 : c1.reviewer = c.reviewer := by
      have h2 := plannerPhase_reviewer env c
      rw [heqpl] at h2
      exact h2
    split at h
    · split at h
      · exact absurd h (by simp)
      · rename_i executed be2 th2 c2 heqexec
        have hc2 : c2.reviewer = c1.reviewer :=
          execBlocksGo_reviewer_ok env _ _ _ _ _ _ _ heqexec
        injection h with h1 h2 h3 h4 h5 h6
        constructor
        · rw [← h5]
          show reviewOf env c2.reviewer = reviewOf env c.reviewer
          rw [hc2, hc1]
        · rw [← h6]
          show c2.reviewer + 1 = c.reviewer + 1
          rw [hc2, hc1]
    · split at h
      · exact absurd h (by simp)
      · split at h <;> exact absurd h (by simp)

/-- C8: whenever the review oracle raises, the review result the state
machine uses is exactly quality_score 4 / approved true, and the run
proceeds to assembly (the round that used the default is the last). -/
theorem reviewer_failure_defaults (env : OrchEnv) (i : Nat) (r : ReviewResult)
    (hget : (run_analytics env).trace.usedReviews.get? i = some r)
    (herr : env.reviewer i = .error ()) :
    r = { quality_score := 4, issues := [], revision_instructions := none,
          approved := true }
    ∧ ∃ rep, (run_analytics env).outcome = .assembled rep := by
  have hrun : run_analytics env = processRound env initialState
      (fun st' fv' => orchLoop env MAX_REVISIONS st' fv') := rfl
  rw [hrun] at hget ⊢
  cases h0 : runRound env initialState.c initialState.review_result
      initialState.revision_count with
  | earlyPlanner c1 =>
      rw [processRound_earlyPlanner h0] at hget
      simp [mkTrace, initialState] at hget
  | earlyText title combined c1 =>
      rw [processRound_earlyText h0] at hget
      simp [mkTrace, initialState] at hget
  | raised c1 =>
      rw [processRound_raised h0] at hget
      simp [mkTrace, initialState] at hget
  | reviewed plan ex be th r0 c1 =>
      obtain ⟨hr0, hc1rev⟩ := runRound_reviewed_inv h0
      have hr0' : r0 = reviewOf env 0 := hr0
      rw [processRound_reviewed h0] at hget ⊢
      by_cases hbr : (r0.approved = true
          ∨ MAX_REVISIONS ≤ (stepState initialState r0 th c1).revision_count)
      · rw [if_pos hbr] at hget ⊢
        simp only [finishRun, mkTrace, stepState, initialState,
          List.nil_append] at hget
        cases i with
        | zero =>
            simp only [List.get?] at hget
            obtain rfl : r0 = r := by
              injection hget
            refine ⟨?_, _, rfl⟩
            rw [hr0']
            simp [reviewOf, herr]
        | succ n =>
            simp only [List.get?] at hget
            cases n <;> simp at hget
      · rw [if_neg hbr] at hget ⊢
        have hna : r0.approved = false := by
          rcases Bool.eq_false_or_eq_true r0.approved with hh | hh
          · exact absurd (Or.inl hh) hbr
          · exact hh
        show _ ∧ ∃ rep, ((orchLoop env MAX_REVISIONS
            (stepState initialState r0 th c1) ⟨plan, ex, be⟩).outcome
            = RunOutcome.assembled rep)
        rw [show MAX_REVISIONS = 1 + 1 from rfl] at hget ⊢
        rw [orchLoop] at hget ⊢
        cases h1 : runRound env (stepState initialState r0 th c1).c
            (stepState initialState r0 th c1).review_result
            (stepState initialState r0 th c1).revision_count with
        | earlyPlanner c2 =>
            rw [processRound_earlyPlanner h1] at hget
            simp only [mkTrace, stepState, initialState, List.nil_append] at hget
            cases i with
            | zero =>
                obtain rfl : r0 = r := by
                  simp only [List.get?] at hget
                  injection hget
                rw [hr0'] at hna
                simp [reviewOf, herr] at hna
            | succ n =>
                simp only [List.get?] at hget
                cases n <;> simp at hget
        | earlyText title combined c2 =>
            rw [processRound_earlyText h1] at hget
            simp only [mkTrace, stepState, initialState, List.nil_append] at hget
            cases i with
            | zero =>
                obtain rfl : r0 = r := by
                  simp only [List.get?] at hget
                  injection hget
                rw [hr0'] at hna
                simp [reviewOf, herr] at hna
            | succ n =>
                simp only [List.get?] at hget
                cases n <;> simp at hget
        | raised c2 =>
            rw [processRound_raised h1] at hget
            simp only [mkTrace, stepState, initialState, List.nil_append] at hget
            cases i with
            | zero =>
                obtain rfl : r0 = r := by
                  simp only [List.get?] at hget
                  injection hget
                rw [hr0'] at hna
                simp [reviewOf, herr] at hna
            | succ n =>
                simp only [List.get?] at hget
                cases n <;> simp at hget
        | reviewed plan2 ex2 be2 th2 r1 c2 =>
            obtain ⟨hr1, hc2rev⟩ := runRound_reviewed_inv h1
            have hst1 : (stepState initialState r0 th c1).c.reviewer = 1 := by
              show c1.reviewer = 1
              rw [hc1rev]
              rfl
            have hr1' : r1 = reviewOf env 1 := by
              rw [hr1, hst1]
            rw [processRound_reviewed h1] at hget ⊢
            have hcond : (r1.approved = true
                ∨ MAX_REVISIONS ≤ (stepState (stepState initialState r0 th c1)
                    r1 th2 c2).revision_count) := by
              rcases Bool.eq_false_or_eq_true r1.approved with h2 | h2
              · exact Or.inl h2
              · right
                simp [stepState, initialState, hna, h2, MAX_REVISIONS]
            rw [if_pos hcond] at hget ⊢
            simp only [finishRun, mkTrace, stepState, initialState,
              List.nil_append] at hget
            cases i with
            | zero =>
                obtain rfl : r0 = r := by
                  simp only [List.get?] at hget
                  injection hget
                rw [hr0'] at hna
                simp [reviewOf, herr] at hna
            | succ n =>
                cases n with
                | zero =>
                    obtain rfl : r1 = r := by
                      simp only [List.get?] at hget
                      injection hget
                    refine ⟨?_, _, rfl⟩
                    rw [hr1']
                    simp [reviewOf, herr]
                | succ m =>
                    simp only [List.get?] at hget
                    cases m <;> simp at hget

/-- Witness for `revision_cycle_bound`: under an always-rejecting
reviewer the run uses exactly two (rejected) reviews and still reaches
the Assembler. -/
theorem revision_cycle_bound_witness :
    (run_analytics envTwoRejects).trace.usedReviews = [rejReview, rejReview]
    ∧ rejReview.approved = false
    ∧ ∃ rep, (run_analytics envTwoRejects).outcome = .assembled rep :=
  ⟨by decide, rfl,
   (revision_cycle_bound envTwoRejects).2 rejReview rejReview (by decide)
     rfl rfl⟩

/-- Witness for `reviewer_failure_defaults`: with a raising review
oracle, the review used in round 0 is the approval default and the run
assembles. -/
theorem reviewer_failure_defaults_witness :
    (run_analytics envReviewerDown).trace.usedReviews.get? 0
      = some { quality_score := 4, issues := [], revision_instructions := none,
               approved := true }
    ∧ envReviewerDown.reviewer 0 = .error ()
    ∧ ∃ rep, (run_analytics envReviewerDown).outcome = .assembled rep :=
  ⟨by decide, rfl,
   (reviewer_failure_defaults envReviewerDown 0
     { quality_score := 4, issues := [], revision_instructions := none,
       approved := true } (by decide) rfl).2⟩

end PrototypeCube
